import Mathlib

/-!
Shallow embedding of the QSchematic wire-topology engine
(src/qschematic/scene.cpp, src/qschematic/items/connector.cpp and
src/qschematic/items/connector.h), together with theorems settling the
claims about it.

Scene positions are modelled as rational 2D points (QPointF), integer grid
points (QPoint) as integer pairs, and the identity of wires, nets, nodes and
connectors (raw or shared pointers in the C++) as natural-number ids.
The Wire and WireNet classes themselves are not part of the given sources
(only scene.cpp and connector.cpp are); their members used by scene.cpp are
modelled from the spec, each marked `Modelled from the spec:` below.
-/

namespace QSchematic

/-- A scene position.  Spec §3: points are integer (or snapped-to-grid) 2D
coordinates, and every comparison for "same point" is made on the
integer-rounded grid coordinate, so positions are modelled as ℤ pairs and
the `QPointF::toPoint()` rounding of the source is the identity here. -/
structure Pt where
  x : ℤ
  y : ℤ
deriving DecidableEq, Repr

def Pt.add (a b : Pt) : Pt := ⟨a.x + b.x, a.y + b.y⟩

def Pt.sub (a b : Pt) : Pt := ⟨a.x - b.x, a.y - b.y⟩

/-- Squared euclidean norm (QVector2D::length() squared). -/
def Pt.normSq (a : Pt) : ℤ := a.x * a.x + a.y * a.y

def Pt.dot (a b : Pt) : ℤ := a.x * b.x + a.y * b.y

/-- Modelled from the spec: the §4.1 point-on-segment tolerance test.  True iff
the euclidean distance from `p` to the segment `a`–`b` is strictly below 1.
Stated on squared quantities so that everything stays in ℚ. -/
def distToSegLtOne (a b p : Pt) : Bool :=
  let d := b.sub a
  let v := p.sub a
  if d = ⟨0, 0⟩ then decide (v.normSq < 1)
  else if v.dot d ≤ 0 then decide (v.normSq < 1)
  else if d.normSq ≤ v.dot d then decide ((p.sub b).normSq < 1)
  else decide (v.normSq * d.normSq - (v.dot d) * (v.dot d) < d.normSq)

/-- Modelled from the spec: a WirePoint is a point plus an `is_junction` flag
(spec §3); class WirePoint is not among the given sources. -/
structure WirePoint where
  pos : Pt
  isJunction : Bool
deriving DecidableEq, Repr

/-- Modelled from the spec: a Wire is an ordered polyline of WirePoints in
local coordinates, an item position (its origin), and the set of
directly-connected wires (spec §3); class Wire is not among the given sources.
Identity (the C++ object address) is the `id` field; `connectedWires` holds
the ids of the wires in this wire's directly-connected set. -/
structure Wire where
  id : Nat
  pos : Pt
  points : List WirePoint
  connectedWires : List Nat
deriving DecidableEq, Repr

/-- Wire::wirePointsRelative(). -/
def Wire.wirePointsRelative (w : Wire) : List WirePoint := w.points

/-- Wire::wirePointsAbsolute(): local points translated by the wire origin. -/
def Wire.wirePointsAbsolute (w : Wire) : List WirePoint :=
  w.points.map (fun p => ⟨w.pos.add p.pos, p.isJunction⟩)

/-- Wire::pointsAbsolute(): the absolute positions only. -/
def Wire.pointsAbsolute (w : Wire) : List Pt :=
  w.points.map (fun p => w.pos.add p.pos)

/-- Modelled from the spec: Wire::pointIsOnWire.  Spec §4.2: true iff the point
lies on some segment of the polyline within the §4.1 tolerance (< 1 unit) and
is not one of the two polyline endpoints (§9: the scenarios assume
strict-interior, endpoint coincidence does not count). -/
def Wire.pointIsOnWire (w : Wire) (p : Pt) : Bool :=
  let abs := w.pointsAbsolute
  match abs with
  | [] => false
  | a :: rest =>
      (List.zip abs rest).any (fun s => distToSegLtOne s.1 s.2 p)
      && !(decide (p = a))
      && !(decide (some p = abs.getLast?))

/-- Modelled from the spec: Wire::connectWire adds a wire to this wire's
directly-connected set (spec §3: a set, so no duplicate is added). -/
def Wire.connectWire (w : Wire) (oid : Nat) : Wire :=
  if w.connectedWires.contains oid then w
  else { w with connectedWires := w.connectedWires ++ [oid] }

/-- Modelled from the spec: Wire::disconnectWire removes a wire from this
wire's directly-connected set. -/
def Wire.disconnectWire (w : Wire) (oid : Nat) : Wire :=
  { w with connectedWires := w.connectedWires.filter (fun x => x ≠ oid) }

/-- Modelled from the spec: Wire::setPointIsJunction sets the `is_junction`
flag of the i-th point; fail-soft (no-op) on an out-of-range index (spec
§4.2 error model). -/
def Wire.setPointIsJunction (w : Wire) (i : Nat) (b : Bool) : Wire :=
  { w with points :=
      w.points.set i ⟨((w.points.getD i ⟨⟨0,0⟩, false⟩).pos), b⟩ }

/-- Modelled from the spec: Wire::junctions returns the absolute wire points
whose `is_junction` flag is set. -/
def Wire.junctions (w : Wire) : List WirePoint :=
  w.wirePointsAbsolute.filter (fun p => p.isJunction)

/-- Modelled from the spec: Wire::removeLastPoint drops the last point. -/
def Wire.removeLastPoint (w : Wire) : Wire :=
  { w with points := w.points.dropLast }

/-- Modelled from the spec: Wire::movePointBy repositions the i-th point by a
delta (spec §4.2); fail-soft on out-of-range. -/
def Wire.movePointBy (w : Wire) (i : Nat) (d : Pt) : Wire :=
  { w with points :=
      match w.points.get? i with
      | none => w.points
      | some p => w.points.set i ⟨p.pos.add d, p.isJunction⟩ }

/-- Helper: does a simplification step apply at the head of the list?  Used by
the spec-modelled Wire::simplify below. -/
def simplifyStep : List WirePoint → List WirePoint
  | [] => []
  | [p] => [p]
  | [p, q] => [p, q]
  | p :: q :: r :: rest =>
      if q.pos = p.pos && !q.isJunction then simplifyStep (p :: r :: rest)
      else if ((q.pos.sub p.pos).x * (r.pos.sub q.pos).y
                 = (q.pos.sub p.pos).y * (r.pos.sub q.pos).x) && !q.isJunction then
        simplifyStep (p :: r :: rest)
      else p :: simplifyStep (q :: r :: rest)
termination_by l => l.length
decreasing_by all_goals simp_all

/-- Modelled from the spec: Wire::simplify removes duplicate and collinear
interior points, preserving the endpoints and interior junction points
verbatim (spec §4.2).  No claim depends on its fine structure. -/
def Wire.simplify (w : Wire) : Wire :=
  { w with points := simplifyStep w.points }

/-- A Connector (items/connector.cpp): position relative to its node and the
optional binding `(_wire, _wirePointIndex)`; `none`/`-1` when detached. -/
structure Connector where
  id : Nat
  pos : Pt
  wire : Option Nat
  wirePointIndex : ℤ
deriving DecidableEq, Repr

/-- Connector::detachWire (connector.cpp): clears the binding. -/
def Connector.detachWire (c : Connector) : Connector :=
  { c with wire := none, wirePointIndex := -1 }

/-- Connector::attachWire (connector.cpp, lines 372-384), called with a
non-null wire: the guard tests the OLD `_wirePointIndex` (not the incoming
index) against the target wire's point count, and uses strict `<`; when the
guard passes the binding is installed unconditionally. -/
def Connector.attachWire (c : Connector) (w : Wire) (index : ℤ) : Connector :=
  if c.wirePointIndex < -1 ∨ (w.wirePointsRelative.length : ℤ) < c.wirePointIndex then c
  else { c with wire := some w.id, wirePointIndex := index }

/-- Connector::moveWirePoint (connector.cpp, lines 357-370), called when
`_wire` is non-null and equal to `w`; `cScenePos` is the connector's scene
position.  Returns `none` when the body performs an out-of-range list access
(`.at(_wirePointIndex)` with `_wirePointIndex` equal to -1 or to the point
count, both of which pass the guard), otherwise the resulting wire. -/
def Connector.moveWirePoint (c : Connector) (cScenePos : Pt) (w : Wire) : Option Wire :=
  if c.wirePointIndex < -1 ∨ (w.wirePointsRelative.length : ℤ) < c.wirePointIndex then
    some w
  else if c.wirePointIndex < 0 then
    none
  else
    match w.wirePointsRelative.get? c.wirePointIndex.toNat with
    | none => none
    | some oldp =>
        let moveBy := cScenePos.sub (w.pos.add oldp.pos)
        some (w.movePointBy c.wirePointIndex.toNat moveBy)

/-- A Node: a position and its owned connectors (spec §3; node.cpp is not
among the given sources, but only the connector list and position matter). -/
structure Node where
  id : Nat
  pos : Pt
  connectors : List Connector
deriving DecidableEq, Repr

/-- A connector's scene position: node position plus local position. -/
def Connector.scenePos (c : Connector) (n : Node) : Pt := n.pos.add c.pos

/-- Modelled from the spec: a WireNet is an ordered set of wires with a name
and a highlight flag (spec §3); class WireNet is not among the given
sources. -/
structure WireNet where
  id : Nat
  name : String
  highlighted : Bool
  wires : List Wire
deriving DecidableEq, Repr

/-- WireNet::contains. -/
def WireNet.containsWire (n : WireNet) (wid : Nat) : Bool :=
  n.wires.any (fun w => w.id == wid)

/-- The topology-engine state (Scene): the net list `_nets` and the nodes. -/
structure Scene where
  nets : List WireNet
  nodes : List Node
deriving DecidableEq, Repr

/-- Scene::wires(): concatenation of all nets' wire lists (scene.cpp 481-490). -/
def Scene.wires (sc : Scene) : List Wire :=
  (sc.nets.map WireNet.wires).flatten

/-- The ids of all wires in the scene, in Scene::wires() order. -/
def Scene.wireIds (sc : Scene) : List Nat :=
  sc.wires.map Wire.id

/-- Look a wire up by id (dereferencing a Wire pointer). -/
def Scene.lookupWire (sc : Scene) (wid : Nat) : Option Wire :=
  sc.wires.find? (fun w => w.id == wid)

/-- The directly-connected set of the wire with the given id ([] when the id
does not name a scene wire). -/
def Scene.connOf (sc : Scene) (wid : Nat) : List Nat :=
  match sc.lookupWire wid with
  | none => []
  | some w => w.connectedWires

/-- Apply a function to the wire with the given id, wherever it lives. -/
def Scene.updateWire (sc : Scene) (wid : Nat) (f : Wire → Wire) : Scene :=
  { sc with nets := sc.nets.map (fun n =>
      { n with wires := n.wires.map (fun w => if w.id == wid then f w else w) }) }

/-- Scene::netFromWire (scene.cpp 814-822): the first net containing the wire. -/
def Scene.netFromWire (sc : Scene) (wid : Nat) : Option WireNet :=
  sc.nets.find? (fun n => n.containsWire wid)

/-- Scene::removeWireNet (scene.cpp 1437-1441): drop the net from `_nets`. -/
def Scene.removeWireNet (sc : Scene) (nid : Nat) : Scene :=
  { sc with nets := sc.nets.filter (fun n => n.id ≠ nid) }

/-- Scene::mergeNets (scene.cpp 801-812), by net id: pointer equality of the
two shared_ptr arguments is id equality here.  Returns false and changes
nothing for the same net; otherwise moves every wire of `bid` into `aid`
(leaving `bid` empty) and returns true. -/
def Scene.mergeNets (sc : Scene) (aid bid : Nat) : Scene × Bool :=
  if aid = bid then (sc, false)
  else
    ({ sc with nets := sc.nets.map (fun n =>
        if n.id == aid then { n with wires := n.wires
          ++ (match sc.nets.find? (fun m => m.id == bid) with
              | none => []
              | some m => m.wires) }
        else if n.id == bid then { n with wires := [] }
        else n) }, true)

/-- Scene::connectWire (scene.cpp 771-779): record `moverId` in the
directly-connected set of `hostId` (the wire being connected TO), then merge
the two wires' nets, discarding the mover's net when the merge happened. -/
def Scene.connectWire (sc : Scene) (hostId moverId : Nat) : Scene :=
  let sc1 := sc.updateWire hostId (fun w => w.connectWire moverId)
  match sc1.netFromWire hostId, sc1.netFromWire moverId with
  | some net, some otherNet =>
      let m := sc1.mergeNets net.id otherNet.id
      if m.2 then m.1.removeWireNet otherNet.id else m.1
  | _, _ => sc1

/-- QList::indexOf: index of the first occurrence, -1 when absent. -/
def idxAux [DecidableEq α] (a : α) : List α → Nat → Option Nat
  | [], _ => none
  | b :: l, n => if b = a then some n else idxAux a l (n + 1)

/-- QList::indexOf as an integer (-1 when absent). -/
def qIndexOf [DecidableEq α] (l : List α) (a : α) : ℤ :=
  match idxAux a l 0 with
  | some n => (n : ℤ)
  | none => -1

/-- One round of the do-while loop of Scene::wiresConnectedTo (scene.cpp
737-761): the wires of the net that are not yet collected but are connected
(in either direction) to a collected wire. -/
def Scene.bfsRound (sc : Scene) (netWireIds : List Nat) (collected : List Nat) : List Nat :=
  netWireIds.filter (fun o =>
    !(collected.contains o)
    && collected.any (fun w2 => (sc.connOf w2).contains o || (sc.connOf o).contains w2))

/-- The do-while loop of Scene::wiresConnectedTo, with explicit fuel.  The C++
loop terminates because every round adds at least one not-yet-collected net
wire; the fuel passed by `Scene.wiresConnectedTo` is shown sufficient in the
theorems below. -/
def Scene.bfsLoop (sc : Scene) (netWireIds : List Nat) : Nat → List Nat → List Nat
  | 0, collected => collected
  | fuel + 1, collected =>
      let nl := sc.bfsRound netWireIds collected
      if nl.isEmpty then collected
      else sc.bfsLoop netWireIds fuel (collected ++ nl)

/-- Scene::wiresConnectedTo (scene.cpp 730-764): all wires of `wid`'s net
transitively connected to it (either direction), plus the wire itself.  The
C++ dereferences `wire->net()` (null when the wire is in no net, which would
crash); that case is modelled as returning just the wire itself and is ruled
out by the hypotheses of every theorem using this definition. -/
def Scene.wiresConnectedTo (sc : Scene) (wid : Nat) : List Nat :=
  match sc.netFromWire wid with
  | none => [wid]
  | some n =>
      let ids := n.wires.map Wire.id
      sc.bfsLoop ids (ids.length + 1) [wid]

/-- Scene::disconnectWire (scene.cpp 705-724): remove `wid` from the
directly-connected set of `otherId`; then, if the wires still transitively
connected to `otherId` no longer exhaust `wid`'s net, move the others of that
net into a fresh net appended to `_nets`. -/
def Scene.disconnectWire (sc : Scene) (wid otherId : Nat) : Scene :=
  let sc1 := sc.updateWire otherId (fun w => w.disconnectWire wid)
  match sc1.netFromWire wid with
  | none => sc1
  | some net =>
      let oldWires := sc1.wiresConnectedTo otherId
      if net.wires.length ≠ oldWires.length then
        let freshId := (sc1.nets.map WireNet.id).foldr max 0 + 1
        { sc1 with nets :=
            (sc1.nets.map (fun n =>
              if n.id == net.id then
                { n with wires := n.wires.filter (fun w => oldWires.contains w.id) }
              else n))
            ++ [⟨freshId, "", false,
                 net.wires.filter (fun w => !(oldWires.contains w.id))⟩] }
      else sc1

/-- Scene::removeWire (scene.cpp 444-479), without the QGraphicsScene item
bookkeeping: break the connection to every wire transitively connected to
`wid` (one direction only, the `else if` of the source), remove the wire from
every net containing it, and delete every net left without wires. -/
def Scene.removeWire (sc : Scene) (wid : Nat) : Scene :=
  let neighbors := sc.wiresConnectedTo wid
  let sc1 : Scene := neighbors.foldl (fun (s : Scene) oid =>
    if oid ≠ wid then
      if (s.connOf oid).contains wid then s.disconnectWire wid oid
      else if (s.connOf wid).contains oid then s.disconnectWire oid wid
      else s
    else s) sc
  let sc2 : Scene := { sc1 with nets := sc1.nets.map (fun (n : WireNet) =>
      if n.containsWire wid then
        { n with wires := n.wires.filter (fun w => w.id ≠ wid) }
      else n) }
  { sc2 with nets := sc2.nets.filter (fun n => !n.wires.isEmpty) }

/-- Pass 1 of Scene::wirePointMovedByUser (scene.cpp 620-638): every connector
bound to `(wid, index)` whose rounded scene position no longer equals the
wire's rounded indexed absolute point is detached. -/
def Scene.detachConnPass (sc : Scene) (wid : Nat) (index : Nat) : Scene :=
  match sc.lookupWire wid with
  | none => sc
  | some w =>
      { sc with nodes := sc.nodes.map (fun n =>
          { n with connectors := n.connectors.map (fun c =>
              if c.wire = some wid ∧ c.wirePointIndex = (index : ℤ)
                 ∧ (c.scenePos n) ≠ (w.pointsAbsolute.getD index ⟨0, 0⟩)
              then c.detachWire else c) }) }

/-- Pass 2 of Scene::wirePointMovedByUser (scene.cpp 640-647): every connector
whose rounded scene position equals the rounded new location of the moved
point is attached to the wire at `indexOf point` — with no check that the
connector is currently unbound.  `pt` is the snapshot of the moved point
taken at the top of the function. -/
def Scene.attachConnPass (sc : Scene) (wid : Nat) (pt : WirePoint) : Scene :=
  match sc.lookupWire wid with
  | none => sc
  | some w =>
      { sc with nodes := sc.nodes.map (fun n =>
          { n with connectors := n.connectors.map (fun c =>
              if (c.scenePos n) = (w.pos.add pt.pos)
              then c.attachWire w (qIndexOf w.wirePointsRelative pt) else c) }) }

/-- The loop body of pass 3 of Scene::wirePointMovedByUser (scene.cpp
652-678): skip the moved wire itself; when wire `xid` records `wid` as
connected, disconnect unless some junction of the moved wire other than
`index` still lies on `xid`, and clear `is_junction` at `index`. -/
def detachStep (wid index : Nat) (s : Scene) (xid : Nat) : Scene :=
  if xid = wid then s
  else
    match s.lookupWire xid, s.lookupWire wid with
    | some x, some wcur =>
        if x.connectedWires.contains wid then
          let keep := wcur.junctions.any (fun p =>
            (qIndexOf wcur.wirePointsAbsolute p ≠ (index : ℤ))
            && x.pointIsOnWire p.pos)
          let s1 := if keep then s else s.disconnectWire wid xid
          s1.updateWire wid (fun w => w.setPointIsJunction index false)
        else s
    | _, _ => s

/-- Pass 3 of Scene::wirePointMovedByUser (scene.cpp 649-680), the junction
break pass: only when `index` is an endpoint carrying `is_junction`; for
every other wire X whose directly-connected set contains `wid`, disconnect
unless some junction of the moved wire other than `index` still lies on X,
and clear `is_junction` at `index`. -/
def Scene.detachWiresPass (sc : Scene) (wid : Nat) (index : Nat) : Scene :=
  match sc.lookupWire wid with
  | none => sc
  | some w0 =>
      if index = 0 ∨ index = w0.pointsAbsolute.length - 1 then
        if (w0.wirePointsRelative.getD index ⟨⟨0, 0⟩, false⟩).isJunction then
          sc.wireIds.foldl (detachStep wid index) sc
        else sc
      else sc

/-- Pass 4 of Scene::wirePointMovedByUser (scene.cpp 682-697), the junction
form pass: only when `index` is an endpoint; for every other wire X on which
the moved point now lies and that is not in the moved wire's
directly-connected set, mark the point as junction and connect X to the moved
wire (which merges their nets). -/
def Scene.attachWiresPass (sc : Scene) (wid : Nat) (index : Nat) : Scene :=
  match sc.lookupWire wid with
  | none => sc
  | some w0 =>
      if index = 0 ∨ index = w0.wirePointsAbsolute.length - 1 then
        sc.wireIds.foldl (fun (s : Scene) xid =>
          if xid = wid then s
          else
            match s.lookupWire xid, s.lookupWire wid with
            | some x, some wcur =>
                if x.pointIsOnWire ((wcur.wirePointsAbsolute.getD index ⟨⟨0, 0⟩, false⟩).pos)
                   && !(wcur.connectedWires.contains xid) then
                  let s1 := s.updateWire wid (fun w => w.setPointIsJunction index true)
                  s1.connectWire xid wid
                else s
            | _, _ => s) sc
      else sc

/-- Scene::wirePointMovedByUser (scene.cpp 617-698): the four passes in
order.  The point snapshot `point` of the source is taken before pass 1;
passes 1 and 2 do not modify any wire, so reading it at the top is exact. -/
def Scene.wirePointMovedByUser (sc : Scene) (wid : Nat) (index : Nat) : Scene :=
  match sc.lookupWire wid with
  | none => sc
  | some w =>
      match w.wirePointsRelative.get? index with
      | none => sc
      | some pt =>
          let sc1 := sc.detachConnPass wid index
          let sc2 := sc1.attachConnPass wid pt
          let sc3 := sc2.detachWiresPass wid index
          sc3.attachWiresPass wid index

/-- Scene::connectionPoints (scene.cpp 1415-1424): the absolute connection
points of every node.  Modelled from the spec: a connector's connection point
is its scene position (spec §4.3, Connector::connectionPoint is the local
origin). -/
def Scene.connectionPoints (sc : Scene) : List Pt :=
  (sc.nodes.map (fun n => n.connectors.map (fun c => c.scenePos n))).flatten

/-- Result of the WireMode double-click handler: the scene, the surviving
in-progress wire (`_newWire`; `none` when the wire was committed), and
whether the `WireFloating` message was surfaced. -/
structure FinalizeResult where
  scene : Scene
  stillDrawing : Option Nat
  floating : Bool
deriving DecidableEq, Repr

/-- The body of the attach-to-wire loop of Scene::mouseDoubleClickEvent
(scene.cpp 1230-1240): if the freshly finished wire's last point lies on the
candidate wire, connect them (merging nets), mark the last point as a
junction and clear the floating flag. -/
def finalizeStep (wid : Nat) (lastPt : Pt) (acc : Scene × Bool) (xid : Nat) :
    Scene × Bool :=
  if xid = wid then acc
  else
    match acc.1.lookupWire xid, acc.1.lookupWire wid with
    | some x, some wcur =>
        if x.pointIsOnWire lastPt then
          (((acc.1.connectWire xid wid).updateWire wid (fun w =>
              w.setPointIsJunction (wcur.pointsAbsolute.length - 1) true)), false)
        else acc
    | _, _ => acc

/-- Scene::mouseDoubleClickEvent, WireMode branch (scene.cpp 1211-1264):
drop the provisional last point; the wire is floating unless its remaining
last point equals a connection point or lies on another wire (connecting to
every such wire as a side effect of the check); when floating, report, drop
the last point again and keep drawing; otherwise simplify and commit. -/
def Scene.finalizeWire (sc : Scene) (wid : Nat) : FinalizeResult :=
  match sc.lookupWire wid with
  | none => ⟨sc, some wid, false⟩
  | some w0 =>
      if w0.wirePointsRelative.length ≤ 1 then ⟨sc, some wid, false⟩
      else
        let sc1 := sc.updateWire wid Wire.removeLastPoint
        let lastPt := (w0.removeLastPoint).pointsAbsolute.getLastD ⟨0, 0⟩
        let floating0 := !(sc1.connectionPoints.contains lastPt)
        let r := sc1.wireIds.foldl (finalizeStep wid lastPt) (sc1, floating0)
        if r.2 then ⟨r.1.updateWire wid Wire.removeLastPoint, some wid, true⟩
        else ⟨r.1.updateWire wid Wire.simplify, none, false⟩

/-- One wire's round of the connector-attachment post-pass of
Scene::from_container (scene.cpp 147-158): every connector within distance
< 1 of some point of the wire is bound to the wire at the index of the first
such point. -/
def loadStep (s : Scene) (w : Wire) : Scene :=
  { s with nodes := s.nodes.map (fun n =>
      { n with connectors := n.connectors.map (fun c =>
          match w.wirePointsAbsolute.find? (fun p =>
              ((c.scenePos n).sub p.pos).normSq < 1) with
          | none => c
          | some p => c.attachWire w (qIndexOf w.wirePointsAbsolute p)) }) }

/-- The connector-attachment post-pass of Scene::from_container (scene.cpp
145-159): for every net, wire, node and connector, bind the connector to the
wire at the index of the first wire point within distance < 1 of the
connector's scene position; a later wire rebinds (Connector::attachWire
permitting). -/
def Scene.attachLoadPass (sc : Scene) : Scene :=
  sc.wires.foldl loadStep sc

/-- String lowercasing for QString::compare(..., Qt::CaseInsensitive). -/
def strLower (s : String) : String :=
  String.mk (s.data.map Char.toLower)

/-- Case-insensitive string equality. -/
def ciEq (a b : String) : Bool :=
  strLower a == strLower b

/-- Scene::nets(wireNet) (scene.cpp 497-516): the nets whose own name is
non-empty and equals the given net's name case-insensitively. -/
def Scene.netsWithSameName (sc : Scene) (net : WireNet) : List WireNet :=
  sc.nets.filter (fun n => !(n.name == "") && ciEq n.name net.name)

/-- Modelled from the spec: WireNet::setHighlighted sets the flag and, unless
signals are blocked, emits a highlightChanged notification (spec §4.5; Qt
signal semantics of blockSignals).  Returns the net and the emitted
notifications. -/
def WireNet.setHighlighted (n : WireNet) (blocked : Bool) (h : Bool) :
    WireNet × List (Nat × Bool) :=
  ({ n with highlighted := h }, if blocked then [] else [(n.id, h)])

/-- The body of the loop of Scene::wireNetHighlightChanged (scene.cpp
600-608): skip the sending net itself, otherwise set the highlight of the net
with signals blocked. -/
def highlightStep (h : Bool) (senderId : Nat)
    (acc : Scene × List (Nat × Bool)) (nid : Nat) : Scene × List (Nat × Bool) :=
  if nid = senderId then acc
  else
    match acc.1.nets.find? (fun n => n.id == nid) with
    | none => acc
    | some n =>
        ({ acc.1 with nets := acc.1.nets.map (fun m =>
             if m.id == nid then (n.setHighlighted true h).1 else m) },
         acc.2 ++ (n.setHighlighted true h).2)

/-- Scene::wireNetHighlightChanged (scene.cpp 582-609): find the sending net;
for every other net with the same non-empty case-insensitive name, set its
highlight with signals blocked.  Returns the new net list and every
highlightChanged notification emitted during the propagation (re-entry into
this handler could only be caused by such a notification). -/
def Scene.wireNetHighlightChanged (sc : Scene) (senderId : Nat) (h : Bool) :
    Scene × List (Nat × Bool) :=
  match sc.nets.find? (fun n => n.id == senderId) with
  | none => (sc, [])
  | some sender =>
      ((sc.netsWithSameName sender).map WireNet.id).foldl
        (highlightStep h senderId) (sc, [])

/-! ## Concrete scenes used by the code_bug evidence and the counterexamples -/

/-- C4 state: wire 1 hosts an endpoint of each of wires 2 and 3 (so
`conn(1) = [2, 3]`), and each of wires 2 and 3 hosts an endpoint of wire 1
(so `conn(2) = conn(3) = [1]`) — mutual connection records, as the
from_container junction-discovery pass (scene.cpp 161-176) creates for
mutually crossing wires.  All three wires are in one net. -/
def c4Wire1 : Wire := ⟨1, ⟨0, 0⟩, [⟨⟨0, 0⟩, false⟩, ⟨⟨10, 0⟩, false⟩], [2, 3]⟩

def c4Wire2 : Wire := ⟨2, ⟨0, 0⟩, [⟨⟨6, 0⟩, false⟩, ⟨⟨0, 5⟩, false⟩], [1]⟩

def c4Wire3 : Wire := ⟨3, ⟨0, 0⟩, [⟨⟨4, 0⟩, false⟩, ⟨⟨10, 5⟩, false⟩], [1]⟩

def c4Scene : Scene := ⟨[⟨0, "", false, [c4Wire1, c4Wire2, c4Wire3]⟩], []⟩

/-- C4 (code_bug evidence): removing wire 1 from `c4Scene` leaves wires 2 and
3 together in a single net although their directly-connected sets are then
both empty — they form two connected components, so the net should have been
split into two.  The `else if` of Scene::removeWire breaks only one direction
of each edge, and the surviving stale records `conn(1) = [2, 3]` keep
Scene::disconnectWire's component computation connected until wire 1 is
removed last. -/
theorem removeWire_leaves_disconnected_wires_in_one_net :
    ((c4Scene.removeWire 1).nets.map (fun n => n.wires.map Wire.id)) = [[2, 3]]
    ∧ (c4Scene.removeWire 1).connOf 2 = []
    ∧ (c4Scene.removeWire 1).connOf 3 = [] := by
  decide

/-- C7 state: a freshly constructed connector (`_wire = nullptr`,
`_wirePointIndex = -1`) and a wire with exactly two points. -/
def c7Conn : Connector := ⟨7, ⟨0, 0⟩, none, -1⟩

def c7Wire : Wire := ⟨9, ⟨0, 0⟩, [⟨⟨0, 0⟩, false⟩, ⟨⟨10, 0⟩, false⟩], []⟩

/-- C7 (code_bug evidence): `attachWire(wire, 2)` on the fresh connector
installs a binding although index 2 is out of range for the two-point wire
(the guard tests the stale `_wirePointIndex = -1`, not the incoming index),
and the subsequent `moveWirePoint()` then reads `wirePointsRelative().at(2)`
out of range (the guard uses `count() < _wirePointIndex`, which index =
count passes). -/
theorem connector_oor_guard_slip :
    (c7Conn.attachWire c7Wire 2).wire = some 9
    ∧ (c7Conn.attachWire c7Wire 2).wirePointIndex = 2
    ∧ (c7Conn.attachWire c7Wire 2).moveWirePoint ⟨3, 3⟩ c7Wire = none := by
  decide

/-- C6 counterexample state: wire 5's endpoint (5,0) lies on the interior of
wire 6 ((0,0)–(10,0)); the wires are in different nets and neither records
the other yet. -/
def c6WireA : Wire := ⟨5, ⟨0, 0⟩, [⟨⟨5, 0⟩, false⟩, ⟨⟨5, 5⟩, false⟩], []⟩

def c6WireB : Wire := ⟨6, ⟨0, 0⟩, [⟨⟨0, 0⟩, false⟩, ⟨⟨10, 0⟩, false⟩], []⟩

def c6Scene : Scene := ⟨[⟨0, "", false, [c6WireA]⟩, ⟨1, "", false, [c6WireB]⟩], []⟩

/-- C6 counterexample: running the junction-form pass for endpoint 0 of wire
5 (whose endpoint lies on wire 6) forms a junction, but it is wire 6 — the
wire being landed on — that records wire 5 in its directly-connected set;
wire 5's own set stays empty.  The claim asserts the opposite direction. -/
theorem connect_direction_cex :
    ((c6Scene.attachWiresPass 5 0).connOf 5 = []
      ∧ (c6Scene.attachWiresPass 5 0).connOf 6 = [5])
    ∧ ¬(6 ∈ (c6Scene.attachWiresPass 5 0).connOf 5
         ∧ 5 ∉ (c6Scene.attachWiresPass 5 0).connOf 6) := by
  decide

/-- C2 counterexample state: wire 1 point 1 is at (10,0); a connector sitting
exactly there is currently bound to a different wire (id 6, in another net). -/
def c2CexScene : Scene :=
  ⟨[⟨0, "", false, [⟨1, ⟨0, 0⟩, [⟨⟨0, 0⟩, false⟩, ⟨⟨10, 0⟩, false⟩], []⟩]⟩,
    ⟨1, "", false, [⟨6, ⟨50, 50⟩, [⟨⟨0, 0⟩, false⟩, ⟨⟨5, 0⟩, false⟩], []⟩]⟩],
   [⟨200, ⟨0, 0⟩, [⟨100, ⟨10, 0⟩, some 6, 0⟩]⟩]⟩

/-- C2 counterexample: after the user-moved-point passes for (wire 1, index
1), the connector that was bound to wire 6 has been rebound to (wire 1, 1):
the attach pass binds every position-matching connector, it does not restrict
itself to unbound ones. -/
theorem attach_pass_rebinds_bound_connector_cex :
    ((c2CexScene.wirePointMovedByUser 1 1).nodes.map (fun n =>
        n.connectors.map (fun c => (c.wire, c.wirePointIndex))))
      = [[(some 1, 1)]] := by
  decide

/-- C9 counterexample state: a fresh connector at scene (0,0); wire 11's
point 0 (an endpoint) is at (0,0); wire 12 — iterated later — has its
interior point 1 at (0,0). -/
def c9CexScene : Scene :=
  ⟨[⟨0, "", false, [⟨11, ⟨0, 0⟩, [⟨⟨0, 0⟩, false⟩, ⟨⟨9, 0⟩, false⟩], []⟩]⟩,
    ⟨1, "", false, [⟨12, ⟨0, 0⟩,
        [⟨⟨5, 5⟩, false⟩, ⟨⟨0, 0⟩, false⟩, ⟨⟨7, 7⟩, false⟩], []⟩]⟩],
   [⟨300, ⟨0, 0⟩, [⟨301, ⟨0, 0⟩, none, -1⟩]⟩]⟩

/-- C9 counterexample: after the load post-pass the connector — whose scene
position coincides with the endpoint (wire 11, point 0) — is NOT bound to
(11, 0): the pass walks every point of every wire and a later wire rebinds,
leaving the connector bound to the interior point (wire 12, index 1). -/
theorem attachLoadPass_endpoint_binding_cex :
    ((c9CexScene.attachLoadPass).nodes.map (fun n =>
        n.connectors.map (fun c => (c.wire, c.wirePointIndex))))
      = [[(some 12, 1)]]
    ∧ ¬((c9CexScene.attachLoadPass).nodes.map (fun n =>
        n.connectors.map (fun c => (c.wire, c.wirePointIndex)))
      = [[(some 11, 0)]]) := by
  decide

/-! ## Statement helpers -/

/-- The net ids, in `_nets` order. -/
def Scene.netIds (sc : Scene) : List Nat := sc.nets.map WireNet.id

/-- Find a net by id. -/
def Scene.findNet (sc : Scene) (nid : Nat) : Option WireNet :=
  sc.nets.find? (fun n => n.id == nid)

/-- The wires of the net with the given id ([] when there is none). -/
def Scene.netWiresOf (sc : Scene) (nid : Nat) : List Wire :=
  match sc.findNet nid with
  | none => []
  | some n => n.wires

/-! ## Generic helper lemmas -/

theorem find?_id_map (l : List WireNet) (g : WireNet → WireNet)
    (hg : ∀ n, (g n).id = n.id) (nid : Nat) :
    (l.map g).find? (fun n => n.id == nid) = (l.find? (fun n => n.id == nid)).map g := by
  rw [List.find?_map]
  have hfun : ((fun n => n.id == nid) ∘ g) = (fun (n : WireNet) => n.id == nid) := by
    funext n
    simp [Function.comp, hg]
  rw [hfun]

theorem find?_wid_map (l : List Wire) (g : Wire → Wire)
    (hg : ∀ w, (g w).id = w.id) (wid : Nat) :
    (l.map g).find? (fun w => w.id == wid) = (l.find? (fun w => w.id == wid)).map g := by
  rw [List.find?_map]
  have hfun : ((fun w => w.id == wid) ∘ g) = (fun (w : Wire) => w.id == wid) := by
    funext w
    simp [Function.comp, hg]
  rw [hfun]

theorem mem_uniq_of_nodup_map_id (l : List Wire) (hnd : (l.map Wire.id).Nodup)
    {w w' : Wire} (hw : w ∈ l) (hw' : w' ∈ l) (hid : w.id = w'.id) : w = w' := by
  exact List.inj_on_of_nodup_map hnd hw hw' hid

theorem find?_eq_of_perm (l l' : List Wire) (h : l.Perm l')
    (hnd : (l.map Wire.id).Nodup) (wid : Nat) :
    l.find? (fun w => w.id == wid) = l'.find? (fun w => w.id == wid) := by
  rcases hfind : l.find? (fun w => w.id == wid) with _ | w
  · rcases hfind' : l'.find? (fun w => w.id == wid) with _ | w'
    · rw [hfind, hfind']
    · exfalso
      have hmem' : w' ∈ l' := List.mem_of_find?_eq_some hfind'
      have hmem : w' ∈ l := h.mem_iff.2 hmem'
      have hnone := List.find?_eq_none.1 hfind w' hmem
      have hkey := List.find?_some hfind'
      exact hnone hkey
  · have hmem : w ∈ l := List.mem_of_find?_eq_some hfind
    have hp := List.find?_some hfind
    rcases hfind' : l'.find? (fun w => w.id == wid) with _ | w'
    · exfalso
      have hnone := List.find?_eq_none.1 hfind' w (h.mem_iff.1 hmem)
      exact hnone hp
    · have hmem' : w' ∈ l := h.mem_iff.2 (List.mem_of_find?_eq_some hfind')
      have hp' := List.find?_some hfind'
      have heq : w = w' := by
        apply mem_uniq_of_nodup_map_id l hnd hmem hmem'
        have h1 : w.id = wid := by simpa using hp
        have h2 : w'.id = wid := by simpa using hp'
        rw [h1, h2]
      rw [hfind, hfind', heq]

theorem le_foldr_max (l : List Nat) (x : Nat) (hx : x ∈ l) : x ≤ l.foldr max 0 := by
  induction l with
  | nil => simp at hx
  | cons a l ih =>
      rcases List.mem_cons.1 hx with h | h
      · subst h
        exact Nat.le_max_left _ _
      · exact Nat.le_trans (ih h) (Nat.le_max_right _ _)

theorem fresh_not_mem (l : List Nat) : l.foldr max 0 + 1 ∉ l := by
  intro hmem
  have := le_foldr_max l _ hmem
  omega

/-! ## Projection lemmas for Scene.updateWire -/

theorem lookupWire_id {sc : Scene} {x : Nat} {w : Wire}
    (hlk : sc.lookupWire x = some w) : w.id = x := by
  have hp := List.find?_some hlk
  simpa using hp

theorem lookupWire_mem {sc : Scene} {x : Nat} {w : Wire}
    (hlk : sc.lookupWire x = some w) : w ∈ sc.wires :=
  List.mem_of_find?_eq_some hlk

theorem nodes_updateWire (sc : Scene) (wid : Nat) (f : Wire → Wire) :
    (sc.updateWire wid f).nodes = sc.nodes := rfl

theorem wires_updateWire (sc : Scene) (wid : Nat) (f : Wire → Wire) :
    (sc.updateWire wid f).wires
      = sc.wires.map (fun w => if w.id == wid then f w else w) := by
  unfold Scene.updateWire Scene.wires
  simp only [List.map_map]
  rw [List.map_flatten]
  congr 1
  rw [List.map_map]
  congr 1

theorem wireIds_updateWire (sc : Scene) (wid : Nat) (f : Wire → Wire)
    (hf : ∀ w, (f w).id = w.id) :
    (sc.updateWire wid f).wireIds = sc.wireIds := by
  unfold Scene.wireIds
  rw [wires_updateWire, List.map_map]
  congr 1
  funext w
  by_cases h : w.id == wid <;> simp [Function.comp, h, hf]

theorem lookupWire_updateWire (sc : Scene) (wid : Nat) (f : Wire → Wire)
    (hf : ∀ w, (f w).id = w.id) (x : Nat) :
    (sc.updateWire wid f).lookupWire x
      = (sc.lookupWire x).map (fun w => if w.id == wid then f w else w) := by
  unfold Scene.lookupWire
  rw [wires_updateWire]
  apply find?_wid_map
  intro w
  by_cases h : w.id == wid <;> simp [h, hf]

theorem lookupWire_updateWire_self {sc : Scene} {wid : Nat} {w : Wire}
    (f : Wire → Wire) (hf : ∀ w, (f w).id = w.id)
    (hlk : sc.lookupWire wid = some w) :
    (sc.updateWire wid f).lookupWire wid = some (f w) := by
  rw [lookupWire_updateWire sc wid f hf, hlk]
  have hid : w.id = wid := lookupWire_id hlk
  simp [hid]

theorem lookupWire_updateWire_ne {sc : Scene} {wid x : Nat}
    (f : Wire → Wire) (hf : ∀ w, (f w).id = w.id) (hne : x ≠ wid) :
    (sc.updateWire wid f).lookupWire x = sc.lookupWire x := by
  rw [lookupWire_updateWire sc wid f hf]
  rcases hlk : sc.lookupWire x with _ | w
  · rfl
  · have hid : w.id = x := lookupWire_id hlk
    simp [hid, hne]

theorem netIds_updateWire (sc : Scene) (wid : Nat) (f : Wire → Wire) :
    (sc.updateWire wid f).netIds = sc.netIds := by
  unfold Scene.netIds Scene.updateWire
  rw [List.map_map]
  congr 1

theorem netFromWire_updateWire (sc : Scene) (wid : Nat) (f : Wire → Wire)
    (hf : ∀ w, (f w).id = w.id) (x : Nat) :
    (sc.updateWire wid f).netFromWire x
      = (sc.netFromWire x).map (fun n =>
          { n with wires := n.wires.map (fun w => if w.id == wid then f w else w) }) := by
  unfold Scene.netFromWire Scene.updateWire
  rw [List.find?_map]
  have hfun : ((fun (n : WireNet) => n.containsWire x)
      ∘ (fun (n : WireNet) =>
          { n with wires := n.wires.map (fun (w : Wire) => if w.id == wid then f w else w) }))
      = (fun (n : WireNet) => n.containsWire x) := by
    funext n
    simp only [Function.comp, WireNet.containsWire, List.any_map]
    congr 1
    funext w
    by_cases h : w.id == wid <;> simp [Function.comp, h, hf]
  rw [hfun]

/-! ## Permutation lemmas for the net reshuffles (split und merge) -/

theorem map_eq_self_of_eq {α : Type} (l : List α) (f : α → α)
    (h : ∀ a ∈ l, f a = a) : l.map f = l := by
  induction l with
  | nil => rfl
  | cons a rest ih =>
      have ha : f a = a := h a (by simp)
      have hrest : rest.map f = rest := ih (fun x hx => h x (by simp [hx]))
      simp [ha, hrest]

theorem net_find?_of_mem_nodup {l : List WireNet} {B : WireNet}
    (hB : B ∈ l) (hnd : (l.map WireNet.id).Nodup) :
    l.find? (fun n => n.id == B.id) = some B := by
  induction l with
  | nil => simp at hB
  | cons n rest ih =>
      simp only [List.map_cons, List.nodup_cons] at hnd
      rcases List.mem_cons.1 hB with h | h
      · rw [List.find?_cons_of_pos]
        · rw [h]
        · rw [h]
          simp
      · have hne : n.id ≠ B.id := by
          intro hEq
          exact hnd.1 (hEq ▸ List.mem_map_of_mem WireNet.id h)
        rw [List.find?_cons_of_neg]
        · exact ih h hnd.2
        · simp [hne]

theorem net_filter_eq_single {l : List WireNet} {B : WireNet}
    (hB : B ∈ l) (hnd : (l.map WireNet.id).Nodup) :
    l.filter (fun n => n.id == B.id) = [B] := by
  induction l with
  | nil => simp at hB
  | cons n rest ih =>
      simp only [List.map_cons, List.nodup_cons] at hnd
      rcases List.mem_cons.1 hB with h | h
      · have hrest : rest.filter (fun m => m.id == B.id) = [] := by
          apply List.filter_eq_nil_iff.2
          intro m hm
          simp only [beq_iff_eq]
          intro hEq
          apply hnd.1
          rw [← h, ← hEq]
          exact List.mem_map_of_mem WireNet.id hm
        rw [List.filter_cons_of_pos, hrest, h]
        rw [h]
        simp
      · have hne : n.id ≠ B.id := by
          intro hEq
          exact hnd.1 (hEq ▸ List.mem_map_of_mem WireNet.id h)
        rw [List.filter_cons_of_neg]
        · exact ih h hnd.2
        · simp [hne]

theorem no_net_id_in_rest {rest : List WireNet} {n net : WireNet}
    (hnd1 : n.id ∉ rest.map WireNet.id) (hmem : net ∈ rest) (heq : n.id = net.id) :
    False :=
  hnd1 (heq ▸ List.mem_map_of_mem WireNet.id hmem)

theorem flatten_filter_slot_perm (l : List WireNet) (net : WireNet) (P : Wire → Bool)
    (hmem : net ∈ l) (hnd : (l.map WireNet.id).Nodup) :
    ((((l.map (fun n => if n.id == net.id
          then { n with wires := n.wires.filter P } else n)).map WireNet.wires).flatten)
      ++ net.wires.filter (fun w => !(P w))).Perm
    ((l.map WireNet.wires).flatten) := by
  induction l with
  | nil => simp at hmem
  | cons n rest ih =>
      simp only [List.map_cons, List.nodup_cons] at hnd
      by_cases hn : n = net
      · have hrest : rest.map (fun m => if m.id == net.id
            then { m with wires := m.wires.filter P } else m) = rest := by
          apply map_eq_self_of_eq
          intro m hm
          have hne : m.id ≠ net.id := by
            intro hEq
            apply hnd.1
            rw [hn, ← hEq]
            exact List.mem_map_of_mem WireNet.id hm
          simp [hne]
        have hcond : ((n.id == net.id) = true) := by
          rw [hn]
          simp
        simp only [List.map_cons, List.flatten_cons, hrest, if_pos hcond]
        have h1 : ((n.wires.filter P ++ ((rest.map WireNet.wires).flatten))
              ++ net.wires.filter (fun w => !(P w))).Perm
            (n.wires.filter P ++ (net.wires.filter (fun w => !(P w))
              ++ ((rest.map WireNet.wires).flatten))) := by
          rw [List.append_assoc]
          exact List.Perm.append_left _ List.perm_append_comm
        have h2 : (n.wires.filter P ++ (net.wires.filter (fun w => !(P w))
              ++ ((rest.map WireNet.wires).flatten)))
            = (n.wires.filter P ++ net.wires.filter (fun w => !(P w)))
              ++ ((rest.map WireNet.wires).flatten) := by
          rw [List.append_assoc]
        have h3 : ((n.wires.filter P ++ net.wires.filter (fun w => !(P w)))
              ++ ((rest.map WireNet.wires).flatten)).Perm
            (n.wires ++ ((rest.map WireNet.wires).flatten)) := by
          apply List.Perm.append_right
          rw [hn]
          exact List.filter_append_perm P net.wires
        exact (h1.trans (h2 ▸ h3))
      · have hmem' : net ∈ rest := by
          rcases List.mem_cons.1 hmem with h | h
          · exact absurd h.symm hn
          · exact h
        have hne : n.id ≠ net.id := fun hEq => no_net_id_in_rest hnd.1 hmem' hEq
        have hcond : ¬((n.id == net.id) = true) := by simp [hne]
        simp only [List.map_cons, List.flatten_cons, if_neg hcond, List.append_assoc]
        exact List.Perm.append_left _ (ih hmem' hnd.2)

theorem flatten_append_slot_perm (l : List WireNet) (A : WireNet) (extra : List Wire)
    (hA : A ∈ l) (hnd : (l.map WireNet.id).Nodup) :
    ((((l.map (fun n => if n.id == A.id
          then { n with wires := n.wires ++ extra } else n)).map WireNet.wires).flatten)).Perm
    (((l.map WireNet.wires).flatten) ++ extra) := by
  induction l with
  | nil => simp at hA
  | cons n rest ih =>
      simp only [List.map_cons, List.nodup_cons] at hnd
      by_cases hn : n = A
      · have hrest : rest.map (fun m => if m.id == A.id
            then { m with wires := m.wires ++ extra } else m) = rest := by
          apply map_eq_self_of_eq
          intro m hm
          have hne : m.id ≠ A.id := by
            intro hEq
            apply hnd.1
            rw [hn, ← hEq]
            exact List.mem_map_of_mem WireNet.id hm
          simp [hne]
        have hcond : ((n.id == A.id) = true) := by
          rw [hn]
          simp
        simp only [List.map_cons, List.flatten_cons, hrest, if_pos hcond]
        have h1 : (n.wires ++ extra) ++ ((rest.map WireNet.wires).flatten)
            = n.wires ++ (extra ++ ((rest.map WireNet.wires).flatten)) := by
          rw [List.append_assoc]
        have h2 : (extra ++ ((rest.map WireNet.wires).flatten)).Perm
            (((rest.map WireNet.wires).flatten) ++ extra) := List.perm_append_comm
        have h3 : (n.wires ++ ((rest.map WireNet.wires).flatten)) ++ extra
            = n.wires ++ (((rest.map WireNet.wires).flatten) ++ extra) := by
          rw [List.append_assoc]
        rw [h1, h3]
        exact List.Perm.append_left _ h2
      · have hmem' : A ∈ rest := by
          rcases List.mem_cons.1 hA with h | h
          · exact absurd h.symm hn
          · exact h
        have hne : n.id ≠ A.id := fun hEq => no_net_id_in_rest hnd.1 hmem' hEq
        have hcond : ¬((n.id == A.id) = true) := by simp [hne]
        simp only [List.map_cons, List.flatten_cons, if_neg hcond, List.append_assoc]
        exact List.Perm.append_left _ (ih hmem' hnd.2)

theorem filter_beq_ne (l : List WireNet) (bid : Nat) :
    l.filter (fun n => !(n.id == bid)) = l.filter (fun n => n.id ≠ bid) := by
  apply List.filter_congr
  intro n _
  by_cases h : n.id = bid <;> simp [h]

theorem filter_map_id_comm (l : List WireNet) (g : WireNet → WireNet)
    (hgid : ∀ n, (g n).id = n.id) (bid : Nat) :
    (l.map g).filter (fun n => n.id ≠ bid)
      = (l.filter (fun n => n.id ≠ bid)).map g := by
  induction l with
  | nil => rfl
  | cons n rest ih =>
      simp only [List.map_cons, List.filter_cons, hgid n]
      by_cases h : n.id = bid
      · simp [h]
        simpa using ih
      · simp [h]
        simpa using ih

theorem flatten_merge_remove_perm (l : List WireNet) (A B : WireNet)
    (hA : A ∈ l) (hB : B ∈ l) (hab : A.id ≠ B.id) (hnd : (l.map WireNet.id).Nodup) :
    ((((l.map (fun n => if n.id == A.id then { n with wires := n.wires ++ B.wires }
          else if n.id == B.id then { n with wires := [] } else n)).filter
          (fun n => n.id ≠ B.id)).map WireNet.wires).flatten).Perm
      ((l.map WireNet.wires).flatten) := by
  set g : WireNet → WireNet := fun n =>
    if n.id == A.id then { n with wires := n.wires ++ B.wires }
    else if n.id == B.id then { n with wires := [] } else n with hg
  have hgid : ∀ n, (g n).id = n.id := by
    intro n
    simp only [hg]
    by_cases h1 : n.id == A.id
    · simp [h1]
    · by_cases h2 : n.id == B.id <;> simp [h1, h2]
  rw [filter_map_id_comm l g hgid B.id]
  -- on the filtered list the B branch of g is dead
  have hga : (l.filter (fun n => n.id ≠ B.id)).map g
      = (l.filter (fun n => n.id ≠ B.id)).map (fun n =>
          if n.id == A.id then { n with wires := n.wires ++ B.wires } else n) := by
    apply List.map_congr_left
    intro m hm
    have hmne : m.id ≠ B.id := by
      have := List.of_mem_filter hm
      simpa using this
    simp only [hg]
    by_cases h1 : m.id == A.id
    · simp [h1]
    · simp [h1, hmne]
  rw [hga]
  have hnd_f : ((l.filter (fun n => n.id ≠ B.id)).map WireNet.id).Nodup := by
    apply List.Nodup.sublist _ hnd
    exact (List.filter_sublist l).map WireNet.id
  have hA_f : A ∈ l.filter (fun n => n.id ≠ B.id) := by
    apply List.mem_filter.2
    exact ⟨hA, by simpa using hab⟩
  have hperm1 := flatten_append_slot_perm (l.filter (fun n => n.id ≠ B.id)) A B.wires hA_f hnd_f
  apply hperm1.trans
  -- [B] ++ filtered is a permutation of l
  have hsplit := List.filter_append_perm (fun n => n.id == B.id) l
  have hone : l.filter (fun n => n.id == B.id) = [B] := net_filter_eq_single hB hnd
  rw [hone, filter_beq_ne] at hsplit
  have hmapped : ((([B] ++ l.filter (fun n => n.id ≠ B.id)).map WireNet.wires).flatten).Perm
      ((l.map WireNet.wires).flatten) := (hsplit.map WireNet.wires).flatten
  have hshape : (([B] ++ l.filter (fun n => n.id ≠ B.id)).map WireNet.wires).flatten
      = B.wires ++ (((l.filter (fun n => n.id ≠ B.id)).map WireNet.wires).flatten) := by
    simp
  rw [hshape] at hmapped
  exact List.perm_append_comm.trans hmapped

/-! ## Projection lemmas for Scene.disconnectWire and Scene.connectWire -/

theorem netFromWire_mem {sc : Scene} {x : Nat} {n : WireNet}
    (h : sc.netFromWire x = some n) : n ∈ sc.nets :=
  List.mem_of_find?_eq_some h

theorem nodes_disconnectWire (sc : Scene) (a b : Nat) :
    (sc.disconnectWire a b).nodes = sc.nodes := by
  unfold Scene.disconnectWire
  rcases hnf : (sc.updateWire b (fun w => w.disconnectWire a)).netFromWire a with _ | net
  · simp only [hnf]
    rfl
  · simp only [hnf]
    by_cases hlen : net.wires.length
        ≠ ((sc.updateWire b (fun w => w.disconnectWire a)).wiresConnectedTo b).length
    · rw [if_pos hlen]
      rfl
    · rw [if_neg hlen]
      rfl

theorem wires_disconnectWire_perm (sc : Scene) (a b : Nat) (hndN : sc.netIds.Nodup) :
    (sc.disconnectWire a b).wires.Perm
      ((sc.updateWire b (fun w => w.disconnectWire a)).wires) := by
  unfold Scene.disconnectWire
  rcases hnf : (sc.updateWire b (fun w => w.disconnectWire a)).netFromWire a with _ | net
  · simp only [hnf]
    exact List.Perm.refl _
  · simp only [hnf]
    by_cases hlen : net.wires.length
        ≠ ((sc.updateWire b (fun w => w.disconnectWire a)).wiresConnectedTo b).length
    · rw [if_pos hlen]
      have hmem : net ∈ (sc.updateWire b (fun w => w.disconnectWire a)).nets :=
        netFromWire_mem hnf
      have hnd1 : ((sc.updateWire b (fun w => w.disconnectWire a)).nets.map WireNet.id).Nodup := by
        have hids := netIds_updateWire sc b (fun w => w.disconnectWire a)
        unfold Scene.netIds at hids
        rw [hids]
        exact hndN
      have hperm := flatten_filter_slot_perm
        ((sc.updateWire b (fun w => w.disconnectWire a)).nets) net
        (fun w => ((sc.updateWire b (fun w => w.disconnectWire a)).wiresConnectedTo b).contains w.id)
        hmem hnd1
      unfold Scene.wires
      simpa using hperm
    · rw [if_neg hlen]

theorem nodes_connectWire (sc : Scene) (hostId moverId : Nat) :
    (sc.connectWire hostId moverId).nodes = sc.nodes := by
  unfold Scene.connectWire
  rcases hA : (sc.updateWire hostId (fun w => w.connectWire moverId)).netFromWire hostId
      with _ | A
  · simp only [hA]
    rfl
  · rcases hB : (sc.updateWire hostId (fun w => w.connectWire moverId)).netFromWire moverId
        with _ | B
    · simp only [hA, hB]
      rfl
    · simp only [hA, hB]
      unfold Scene.mergeNets
      by_cases hab : A.id = B.id
      · simp only [hab, if_pos]
        rfl
      · simp only [hab, if_neg, not_false_iff]
        rfl

theorem wires_connectWire_perm (sc : Scene) (hostId moverId : Nat)
    (hndN : sc.netIds.Nodup) :
    (sc.connectWire hostId moverId).wires.Perm
      ((sc.updateWire hostId (fun w => w.connectWire moverId)).wires) := by
  unfold Scene.connectWire
  rcases hA : (sc.updateWire hostId (fun w => w.connectWire moverId)).netFromWire hostId
      with _ | A
  · simp only [hA]
    exact List.Perm.refl _
  · rcases hB : (sc.updateWire hostId (fun w => w.connectWire moverId)).netFromWire moverId
        with _ | B
    · simp only [hA, hB]
      exact List.Perm.refl _
    · simp only [hA, hB]
      unfold Scene.mergeNets
      by_cases hab : A.id = B.id
      · simp only [hab, if_pos]
        exact List.Perm.refl _
      · simp only [hab, if_neg, not_false_iff]
        have hnd1 : ((sc.updateWire hostId (fun w => w.connectWire moverId)).nets.map
            WireNet.id).Nodup := by
          have hids := netIds_updateWire sc hostId (fun w => w.connectWire moverId)
          unfold Scene.netIds at hids
          rw [hids]
          exact hndN
        have hmemA : A ∈ (sc.updateWire hostId (fun w => w.connectWire moverId)).nets :=
          netFromWire_mem hA
        have hmemB : B ∈ (sc.updateWire hostId (fun w => w.connectWire moverId)).nets :=
          netFromWire_mem hB
        have hfind : (sc.updateWire hostId (fun w => w.connectWire moverId)).nets.find?
            (fun n => n.id == B.id) = some B := net_find?_of_mem_nodup hmemB hnd1
        simp only [hfind]
        have hperm := flatten_merge_remove_perm
          ((sc.updateWire hostId (fun w => w.connectWire moverId)).nets) A B
          hmemA hmemB hab hnd1
        unfold Scene.wires Scene.removeWireNet
        simpa using hperm

theorem wireIds_disconnectWire_perm (sc : Scene) (a b : Nat) (hndN : sc.netIds.Nodup) :
    (sc.disconnectWire a b).wireIds.Perm sc.wireIds := by
  have hperm := (wires_disconnectWire_perm sc a b hndN).map Wire.id
  have hids := wireIds_updateWire sc b (fun w => w.disconnectWire a) (fun w => rfl)
  unfold Scene.wireIds at hids ⊢
  rw [← hids]
  exact hperm

theorem Wire.connectWire_id (w : Wire) (oid : Nat) : (w.connectWire oid).id = w.id := by
  unfold Wire.connectWire
  split <;> rfl

theorem wireIds_connectWire_perm (sc : Scene) (hostId moverId : Nat)
    (hndN : sc.netIds.Nodup) :
    (sc.connectWire hostId moverId).wireIds.Perm sc.wireIds := by
  have hperm := (wires_connectWire_perm sc hostId moverId hndN).map Wire.id
  have hids := wireIds_updateWire sc hostId (fun w => w.connectWire moverId)
    (fun w => Wire.connectWire_id w moverId)
  unfold Scene.wireIds at hids ⊢
  rw [← hids]
  exact hperm

theorem lookupWire_disconnectWire (sc : Scene) (a b x : Nat)
    (hndW : sc.wireIds.Nodup) (hndN : sc.netIds.Nodup) :
    (sc.disconnectWire a b).lookupWire x
      = (sc.updateWire b (fun w => w.disconnectWire a)).lookupWire x := by
  have hperm := wires_disconnectWire_perm sc a b hndN
  have hnd : ((sc.disconnectWire a b).wires.map Wire.id).Nodup := by
    have hp := wireIds_disconnectWire_perm sc a b hndN
    unfold Scene.wireIds at hp
    exact hp.nodup_iff.2 hndW
  exact find?_eq_of_perm _ _ hperm hnd x

theorem lookupWire_connectWire (sc : Scene) (hostId moverId x : Nat)
    (hndW : sc.wireIds.Nodup) (hndN : sc.netIds.Nodup) :
    (sc.connectWire hostId moverId).lookupWire x
      = (sc.updateWire hostId (fun w => w.connectWire moverId)).lookupWire x := by
  have hperm := wires_connectWire_perm sc hostId moverId hndN
  have hnd : ((sc.connectWire hostId moverId).wires.map Wire.id).Nodup := by
    have hp := wireIds_connectWire_perm sc hostId moverId hndN
    unfold Scene.wireIds at hp
    exact hp.nodup_iff.2 hndW
  exact find?_eq_of_perm _ _ hperm hnd x

theorem netIds_disconnectWire_nodup (sc : Scene) (a b : Nat) (hndN : sc.netIds.Nodup) :
    (sc.disconnectWire a b).netIds.Nodup := by
  unfold Scene.disconnectWire
  rcases hnf : (sc.updateWire b (fun w => w.disconnectWire a)).netFromWire a with _ | net
  · simp only [hnf]
    have hids := netIds_updateWire sc b (fun w => w.disconnectWire a)
    rw [hids]
    exact hndN
  · simp only [hnf]
    by_cases hlen : net.wires.length
        ≠ ((sc.updateWire b (fun w => w.disconnectWire a)).wiresConnectedTo b).length
    · rw [if_pos hlen]
      have hids := netIds_updateWire sc b (fun w => w.disconnectWire a)
      unfold Scene.netIds at hids ⊢
      simp only [List.map_append, List.map_map, List.map_cons, List.map_nil]
      have hmapped : ((sc.updateWire b (fun w => w.disconnectWire a)).nets.map
          (WireNet.id ∘ (fun n => if n.id == net.id
            then { n with wires := n.wires.filter (fun w =>
              ((sc.updateWire b (fun w => w.disconnectWire a)).wiresConnectedTo b).contains w.id) }
            else n)))
          = (sc.updateWire b (fun w => w.disconnectWire a)).nets.map WireNet.id := by
        apply List.map_congr_left
        intro n _
        by_cases h : n.id == net.id <;> simp [Function.comp, h]
      rw [hmapped, hids]
      rw [List.nodup_append]
      refine ⟨hndN, List.nodup_singleton _, ?_⟩
      intro y hy
      simp only [List.mem_singleton]
      intro hEq
      rw [hEq] at hy
      exact fresh_not_mem _ hy
    · rw [if_neg hlen]
      have hids := netIds_updateWire sc b (fun w => w.disconnectWire a)
      rw [hids]
      exact hndN

theorem map_id_filter_ne (l : List WireNet) (nid : Nat) :
    (l.filter (fun n => n.id ≠ nid)).map WireNet.id
      = (l.map WireNet.id).filter (fun x => x ≠ nid) := by
  induction l with
  | nil => rfl
  | cons n rest ih =>
      by_cases h : n.id = nid
      · simp only [List.filter_cons, List.map_cons, h]
        simp only [decide_not]
        simp
        simpa using ih
      · simp only [List.filter_cons, List.map_cons, h]
        simp [h]
        simpa using ih

theorem netIds_removeWireNet (sc : Scene) (nid : Nat) :
    (sc.removeWireNet nid).netIds = sc.netIds.filter (fun x => x ≠ nid) := by
  unfold Scene.removeWireNet Scene.netIds
  simpa using map_id_filter_ne sc.nets nid

theorem netIds_mergeNets (sc : Scene) (aid bid : Nat) :
    ((sc.mergeNets aid bid).1).netIds = sc.netIds := by
  unfold Scene.mergeNets
  by_cases hab : aid = bid
  · rw [if_pos hab]
  · rw [if_neg hab]
    simp only []
    unfold Scene.netIds
    rw [List.map_map]
    apply List.map_congr_left
    intro n _
    by_cases h1 : n.id == aid
    · simp [Function.comp, h1]
    · by_cases h2 : n.id == bid <;> simp [Function.comp, h1, h2]

theorem netIds_connectWire_nodup (sc : Scene) (hostId moverId : Nat)
    (hndN : sc.netIds.Nodup) :
    (sc.connectWire hostId moverId).netIds.Nodup := by
  unfold Scene.connectWire
  rcases hA : (sc.updateWire hostId (fun w => w.connectWire moverId)).netFromWire hostId
      with _ | A
  · simp only [hA]
    have hids := netIds_updateWire sc hostId (fun w => w.connectWire moverId)
    rw [hids]
    exact hndN
  · rcases hB : (sc.updateWire hostId (fun w => w.connectWire moverId)).netFromWire moverId
        with _ | B
    · simp only [hA, hB]
      have hids := netIds_updateWire sc hostId (fun w => w.connectWire moverId)
      rw [hids]
      exact hndN
    · simp only [hA, hB]
      by_cases hm : ((sc.updateWire hostId (fun w => w.connectWire moverId)).mergeNets
          A.id B.id).2 = true
      · rw [if_pos hm]
        rw [netIds_removeWireNet, netIds_mergeNets,
          netIds_updateWire sc hostId (fun w => w.connectWire moverId)]
        exact hndN.filter _
      · rw [if_neg hm]
        rw [netIds_mergeNets, netIds_updateWire sc hostId (fun w => w.connectWire moverId)]
        exact hndN

/-! ## C5: merge nets -/

theorem findNet_id {sc : Scene} {nid : Nat} {A : WireNet}
    (h : sc.findNet nid = some A) : A.id = nid := by
  have hp := List.find?_some h
  simpa using hp

/-- C5 (confirmed): Scene::mergeNets with the same net (shared_ptr equality =
id equality) returns false and changes nothing; with two distinct nets it
moves every wire of B to the back of A's wire list (leaving B with no wires),
returns true and keeps the net list's ids; and Scene::connectWire — the
caller that merges on connecting — then discards the emptied net from
`_nets`. -/
theorem mergeNets_spec (sc : Scene) (aid bid : Nat) (A B : WireNet)
    (ha : sc.findNet aid = some A) (hb : sc.findNet bid = some B)
    (hab : aid ≠ bid) :
    sc.mergeNets aid aid = (sc, false)
    ∧ (sc.mergeNets aid bid).2 = true
    ∧ (sc.mergeNets aid bid).1.netWiresOf aid = A.wires ++ B.wires
    ∧ (sc.mergeNets aid bid).1.netWiresOf bid = []
    ∧ (sc.mergeNets aid bid).1.netIds = sc.netIds
    ∧ (∀ hostId moverId NA NB, sc.netFromWire hostId = some NA
        → sc.netFromWire moverId = some NB → NA.id ≠ NB.id
        → (sc.connectWire hostId moverId).netIds
            = sc.netIds.filter (fun x => x ≠ NB.id)) := by
  have hAid : A.id = aid := findNet_id ha
  have hBid : B.id = bid := findNet_id hb
  have hbw : (sc.nets.find? (fun n => n.id == bid)) = some B := hb
  refine ⟨by simp [Scene.mergeNets], ?_, ?_, ?_, ?_, ?_⟩
  · simp [Scene.mergeNets, hab]
  · unfold Scene.netWiresOf Scene.findNet Scene.mergeNets
    rw [if_neg hab]
    simp only [hbw]
    rw [find?_id_map]
    · unfold Scene.findNet at ha
      rw [ha]
      simp only [Option.map_some']
      simp [hAid]
    · intro n
      by_cases h1 : n.id == aid
      · simp [h1]
      · by_cases h2 : n.id == bid <;> simp [h1, h2]
  · unfold Scene.netWiresOf Scene.findNet Scene.mergeNets
    rw [if_neg hab]
    simp only [hbw]
    rw [find?_id_map]
    · unfold Scene.findNet at hb
      rw [hb]
      simp only [Option.map_some']
      have hne1 : ¬(B.id = aid) := by
        rw [hBid]
        exact hab.symm
      simp [hne1, hBid]
      rw [if_neg (Ne.symm hab)]
    · intro n
      by_cases h1 : n.id == aid
      · simp [h1]
      · by_cases h2 : n.id == bid <;> simp [h1, h2]
  · exact netIds_mergeNets sc aid bid
  · intro hostId moverId NA NB hNA hNB hne
    unfold Scene.connectWire
    have hmap := netFromWire_updateWire sc hostId (fun w => w.connectWire moverId)
      (fun w => Wire.connectWire_id w moverId)
    have hm2 : ((sc.updateWire hostId (fun w => w.connectWire moverId)).mergeNets
        NA.id NB.id).2 = true := by
      unfold Scene.mergeNets
      rw [if_neg hne]
    simp only [hmap, hNA, hNB, Option.map_some']
    rw [if_pos hm2]
    rw [netIds_removeWireNet, netIds_mergeNets,
      netIds_updateWire sc hostId (fun w => w.connectWire moverId)]

/-- Concrete scene for the C5 witness: two singleton nets. -/
def c5Scene : Scene :=
  ⟨[⟨0, "a", false, [⟨1, ⟨0, 0⟩, [⟨⟨0, 0⟩, false⟩], []⟩]⟩,
    ⟨1, "b", false, [⟨2, ⟨0, 0⟩, [⟨⟨1, 1⟩, false⟩], []⟩]⟩], []⟩

/-- C5 witness: the theorem applied to `c5Scene` with nets 0 and 1. -/
theorem mergeNets_spec_witness :
    c5Scene.mergeNets 0 0 = (c5Scene, false)
    ∧ (c5Scene.mergeNets 0 1).2 = true
    ∧ (c5Scene.mergeNets 0 1).1.netWiresOf 1 = [] := by
  have h := mergeNets_spec c5Scene 0 1
    ⟨0, "a", false, [⟨1, ⟨0, 0⟩, [⟨⟨0, 0⟩, false⟩], []⟩]⟩
    ⟨1, "b", false, [⟨2, ⟨0, 0⟩, [⟨⟨1, 1⟩, false⟩], []⟩]⟩
    (by decide) (by decide) (by decide)
  exact ⟨h.1, h.2.1, h.2.2.2.1⟩

/-! ## C8: highlight propagation by name -/

theorem net_mem_uniq {l : List WireNet} (hnd : (l.map WireNet.id).Nodup)
    {a b : WireNet} (ha : a ∈ l) (hb : b ∈ l) (h : a.id = b.id) : a = b :=
  List.inj_on_of_nodup_map hnd ha hb h

theorem strLower_empty_iff (s : String) : strLower s = "" ↔ s = "" := by
  unfold strLower
  rw [String.ext_iff, String.ext_iff]
  simp

theorem highlightStep_skip (hB : Bool) (senderId : Nat) (acc : Scene × List (Nat × Bool))
    (nid : Nat) (h : nid = senderId) : highlightStep hB senderId acc nid = acc := by
  unfold highlightStep
  rw [if_pos h]

theorem highlightStep_miss (hB : Bool) (senderId : Nat) (acc : Scene × List (Nat × Bool))
    (nid : Nat) (h : ¬nid = senderId)
    (hf : acc.1.nets.find? (fun n => n.id == nid) = none) :
    highlightStep hB senderId acc nid = acc := by
  unfold highlightStep
  rw [if_neg h]
  simp only [hf]

theorem highlightStep_hit (hB : Bool) (senderId : Nat) (acc : Scene × List (Nat × Bool))
    (nid : Nat) (n : WireNet) (h : ¬nid = senderId)
    (hf : acc.1.nets.find? (fun n => n.id == nid) = some n) :
    highlightStep hB senderId acc nid
      = ({ acc.1 with nets := acc.1.nets.map (fun m =>
            if m.id == nid then (n.setHighlighted true hB).1 else m) },
         acc.2 ++ (n.setHighlighted true hB).2) := by
  unfold highlightStep
  rw [if_neg h]
  simp only [hf]

theorem highlight_foldl_spec (hB : Bool) (senderId : Nat) (ids : List Nat) :
    ∀ (s0 : Scene) (ev0 : List (Nat × Bool)),
    (s0.nets.map WireNet.id).Nodup →
    ((ids.foldl (highlightStep hB senderId) (s0, ev0)).2 = ev0
     ∧ (ids.foldl (highlightStep hB senderId) (s0, ev0)).1.nets
        = s0.nets.map (fun m => if m.id ∈ ids ∧ m.id ≠ senderId
            then { m with highlighted := hB } else m)
     ∧ (ids.foldl (highlightStep hB senderId) (s0, ev0)).1.nodes = s0.nodes) := by
  induction ids with
  | nil =>
      intro s0 ev0 _
      refine ⟨rfl, ?_, rfl⟩
      symm
      apply map_eq_self_of_eq
      intro m _
      simp
  | cons nid rest ih =>
      intro s0 ev0 hnd
      rw [List.foldl_cons]
      by_cases hsend : nid = senderId
      · rw [highlightStep_skip hB senderId (s0, ev0) nid hsend]
        have hres := ih s0 ev0 hnd
        refine ⟨hres.1, ?_, hres.2.2⟩
        rw [hres.2.1]
        apply List.map_congr_left
        intro m _
        by_cases hm : m.id ∈ rest ∧ m.id ≠ senderId
        · rw [if_pos hm, if_pos ⟨List.mem_cons_of_mem _ hm.1, hm.2⟩]
        · rw [if_neg hm, if_neg ?_]
          intro hcon
          rcases List.mem_cons.1 hcon.1 with hEq | hmem
          · exact hcon.2 (hEq.trans hsend)
          · exact hm ⟨hmem, hcon.2⟩
      · rcases hfind : s0.nets.find? (fun n => n.id == nid) with _ | n
        · rw [highlightStep_miss hB senderId (s0, ev0) nid hsend hfind]
          have hres := ih s0 ev0 hnd
          refine ⟨hres.1, ?_, hres.2.2⟩
          rw [hres.2.1]
          apply List.map_congr_left
          intro m hm
          have hne : m.id ≠ nid := by
            intro hEq
            have hnone := List.find?_eq_none.1 hfind m hm
            simp [hEq] at hnone
          by_cases hc : m.id ∈ rest ∧ m.id ≠ senderId
          · rw [if_pos hc, if_pos ⟨List.mem_cons_of_mem _ hc.1, hc.2⟩]
          · rw [if_neg hc, if_neg ?_]
            intro hcon
            rcases List.mem_cons.1 hcon.1 with hEq | hmem
            · exact hne hEq
            · exact hc ⟨hmem, hcon.2⟩
        · rw [highlightStep_hit hB senderId (s0, ev0) nid n hsend hfind]
          have hnid : n.id = nid := by
            have hp := List.find?_some hfind
            simpa using hp
          have hnmem : n ∈ s0.nets := List.mem_of_find?_eq_some hfind
          have hnd1 : (((s0.nets.map (fun m =>
              if m.id == nid then (n.setHighlighted true hB).1 else m))).map
                WireNet.id).Nodup := by
            rw [List.map_map]
            have hcongr : s0.nets.map (WireNet.id ∘ (fun m =>
                if m.id == nid then (n.setHighlighted true hB).1 else m))
                = s0.nets.map WireNet.id := by
              apply List.map_congr_left
              intro m _
              by_cases hm : (m.id == nid) = true
              · simp only [Function.comp, if_pos hm]
                show n.id = m.id
                have hmid : m.id = nid := by simpa using hm
                rw [hnid, hmid]
              · simp [Function.comp, hm]
            rw [hcongr]
            exact hnd
          have hres := ih { s0 with nets := s0.nets.map (fun m =>
              if m.id == nid then (n.setHighlighted true hB).1 else m) }
            (ev0 ++ (n.setHighlighted true hB).2) hnd1
          refine ⟨?_, ?_, hres.2.2⟩
          · rw [hres.1]
            show ev0 ++ [] = ev0
            simp
          · rw [hres.2.1]
            show (s0.nets.map (fun m =>
                if m.id == nid then (n.setHighlighted true hB).1 else m)).map _
              = _
            rw [List.map_map]
            apply List.map_congr_left
            intro m hm
            simp only [Function.comp]
            by_cases hmn : m.id = nid
            · have hmeq : n = m := net_mem_uniq hnd hnmem hm (hnid.trans hmn.symm)
              have hcond : (m.id == nid) = true := by simpa using hmn
              rw [if_pos hcond]
              by_cases hcs : (n.setHighlighted true hB).1.id ∈ rest
                  ∧ (n.setHighlighted true hB).1.id ≠ senderId
              · rw [if_pos hcs]
                rw [if_pos ?_]
                · show ({ n with highlighted := hB } : WireNet)
                      = { m with highlighted := hB }
                  rw [hmeq]
                · refine ⟨?_, ?_⟩
                  · rw [hmn]
                    exact List.mem_cons_self _ _
                  · rw [hmn]
                    exact hsend
              · rw [if_neg hcs]
                rw [if_pos ?_]
                · show ({ n with highlighted := hB } : WireNet)
                      = { m with highlighted := hB }
                  rw [hmeq]
                · refine ⟨?_, ?_⟩
                  · rw [hmn]
                    exact List.mem_cons_self _ _
                  · rw [hmn]
                    exact hsend
            · have hcond : ¬((m.id == nid) = true) := by simpa using hmn
              rw [if_neg hcond]
              by_cases hc : m.id ∈ rest ∧ m.id ≠ senderId
              · rw [if_pos hc, if_pos ⟨List.mem_cons_of_mem _ hc.1, hc.2⟩]
              · rw [if_neg hc, if_neg ?_]
                intro hcon
                rcases List.mem_cons.1 hcon.1 with hEq | hmem
                · exact hmn hEq
                · exact hc ⟨hmem, hcon.2⟩

/-- C8 (confirmed): when the net with id `senderId` reports a highlight
change, (a) the handler emits no further highlightChanged notification — the
propagation runs with signals blocked, so it can never re-enter itself;
(b) every other net whose non-empty name equals the sender's under
case-insensitive comparison ends with its highlight flag set to the new
value; (c) every net with an empty name, and every net whose name does not
match, is left unchanged; (d) when the sender's own name is empty nothing at
all changes. -/
theorem wireNetHighlightChanged_spec (sc : Scene) (senderId : Nat) (hB : Bool)
    (sender : WireNet) (hs : sc.nets.find? (fun n => n.id == senderId) = some sender)
    (hndN : sc.netIds.Nodup) :
    ((sc.wireNetHighlightChanged senderId hB).2 = [])
    ∧ (∀ n ∈ sc.nets, n.id ≠ senderId → n.name ≠ ""
        → ciEq n.name sender.name = true
        → (sc.wireNetHighlightChanged senderId hB).1.findNet n.id
            = some { n with highlighted := hB })
    ∧ (∀ n ∈ sc.nets, n.name = ""
        → (sc.wireNetHighlightChanged senderId hB).1.findNet n.id = some n)
    ∧ (∀ n ∈ sc.nets, ciEq n.name sender.name = false
        → (sc.wireNetHighlightChanged senderId hB).1.findNet n.id = some n)
    ∧ (sender.name = "" → (sc.wireNetHighlightChanged senderId hB).1 = sc) := by
  have hndNets : (sc.nets.map WireNet.id).Nodup := hndN
  unfold Scene.wireNetHighlightChanged
  simp only [hs]
  have hfold := highlight_foldl_spec hB senderId
    ((sc.netsWithSameName sender).map WireNet.id) sc [] hndNets
  have hg : ∀ m : WireNet,
      ((fun m => if m.id ∈ (sc.netsWithSameName sender).map WireNet.id ∧ m.id ≠ senderId
          then { m with highlighted := hB } else m) m).id = m.id := by
    intro m
    simp only []
    split <;> rfl
  have hmemIff : ∀ n ∈ sc.nets, (n.id ∈ (sc.netsWithSameName sender).map WireNet.id
      ↔ (n.name ≠ "" ∧ ciEq n.name sender.name = true)) := by
    intro n hn
    constructor
    · intro hmem
      rcases List.mem_map.1 hmem with ⟨n', hn', hid⟩
      have hn'mem : n' ∈ sc.nets := List.mem_of_mem_filter hn'
      have heq : n' = n := net_mem_uniq hndNets hn'mem hn hid
      have hprop := List.of_mem_filter hn'
      rw [heq] at hprop
      simp only [Bool.and_eq_true, Bool.not_eq_true', beq_eq_false_iff_ne] at hprop
      exact ⟨hprop.1, hprop.2⟩
    · intro hcond
      apply List.mem_map.2
      refine ⟨n, ?_, rfl⟩
      apply List.mem_filter.2
      refine ⟨hn, ?_⟩
      simp only [Bool.and_eq_true, Bool.not_eq_true', beq_eq_false_iff_ne]
      exact ⟨hcond.1, hcond.2⟩
  refine ⟨hfold.1, ?_, ?_, ?_, ?_⟩
  · intro n hn hne hnm hci
    unfold Scene.findNet
    rw [hfold.2.1]
    rw [find?_id_map _ _ hg]
    rw [net_find?_of_mem_nodup hn hndNets]
    simp only [Option.map_some']
    rw [if_pos ⟨(hmemIff n hn).2 ⟨hnm, hci⟩, hne⟩]
  · intro n hn hnm
    unfold Scene.findNet
    rw [hfold.2.1]
    rw [find?_id_map _ _ hg]
    rw [net_find?_of_mem_nodup hn hndNets]
    simp only [Option.map_some']
    rw [if_neg ?_]
    intro hcon
    exact ((hmemIff n hn).1 hcon.1).1 hnm
  · intro n hn hci
    unfold Scene.findNet
    rw [hfold.2.1]
    rw [find?_id_map _ _ hg]
    rw [net_find?_of_mem_nodup hn hndNets]
    simp only [Option.map_some']
    rw [if_neg ?_]
    intro hcon
    have := ((hmemIff n hn).1 hcon.1).2
    rw [hci] at this
    exact Bool.false_ne_true this
  · intro hname
    have hempty : sc.netsWithSameName sender = [] := by
      apply List.filter_eq_nil_iff.2
      intro n _
      intro hp
      rw [Bool.and_eq_true] at hp
      have h1 : n.name ≠ "" := by
        have hx := hp.1
        simp only [Bool.not_eq_true'] at hx
        simpa using hx
      have h2 := hp.2
      unfold ciEq at h2
      rw [hname] at h2
      have h3 : strLower n.name = strLower "" := by simpa using h2
      have h4 : strLower n.name = "" := by
        rw [h3]
        rfl
      exact h1 ((strLower_empty_iff n.name).1 h4)
    rw [hempty]
    rfl

/-- Concrete scene for the C8 witness: nets named "VCC", "vcc", "", "GND". -/
def c8Scene : Scene :=
  ⟨[⟨0, "VCC", false, []⟩, ⟨1, "vcc", false, []⟩, ⟨2, "", false, []⟩,
    ⟨3, "GND", false, []⟩], []⟩

/-- C8 witness: highlighting net 0 ("VCC") highlights net 1 ("vcc"), emits no
notification, and leaves the empty-named net 2 and the differently named net
3 untouched. -/
theorem wireNetHighlightChanged_spec_witness :
    ((c8Scene.wireNetHighlightChanged 0 true).2 = [])
    ∧ (c8Scene.wireNetHighlightChanged 0 true).1.findNet 1
        = some ⟨1, "vcc", true, []⟩
    ∧ (c8Scene.wireNetHighlightChanged 0 true).1.findNet 2
        = some ⟨2, "", false, []⟩
    ∧ (c8Scene.wireNetHighlightChanged 0 true).1.findNet 3
        = some ⟨3, "GND", false, []⟩ := by
  have h := wireNetHighlightChanged_spec c8Scene 0 true ⟨0, "VCC", false, []⟩
    (by decide) (by decide)
  refine ⟨h.1, ?_, ?_, ?_⟩
  · exact h.2.1 ⟨1, "vcc", false, []⟩ (by decide) (by decide) (by decide) (by decide)
  · exact h.2.2.1 ⟨2, "", false, []⟩ (by decide) rfl
  · exact h.2.2.2.1 ⟨3, "GND", false, []⟩ (by decide) (by decide)

/-! ## C1: floating wire rejected on double-click -/

/-- The observable net structure: net ids with their wire-id lists, in order. -/
def Scene.netShape (sc : Scene) : List (Nat × List Nat) :=
  sc.nets.map (fun n => (n.id, n.wires.map Wire.id))

theorem netShape_updateWire (sc : Scene) (wid : Nat) (f : Wire → Wire)
    (hf : ∀ w, (f w).id = w.id) :
    (sc.updateWire wid f).netShape = sc.netShape := by
  unfold Scene.netShape Scene.updateWire
  rw [List.map_map]
  apply List.map_congr_left
  intro n _
  simp only [Function.comp, List.map_map]
  congr 1
  apply List.map_congr_left
  intro w _
  simp only [Function.comp]
  by_cases h : w.id == wid
  · simp [h, hf]
  · simp [h]

theorem connectionPoints_updateWire (sc : Scene) (wid : Nat) (f : Wire → Wire) :
    (sc.updateWire wid f).connectionPoints = sc.connectionPoints := rfl

/-- C1 (confirmed): double-clicking to finish the in-progress wire whose
remaining last point — after the provisional point is dropped — equals no
connection point and lies on no other wire surfaces the `WireFloating`
message, installs no wire (the in-progress wire stays the in-progress wire，
uncommitted) and creates no net: the net list, including which wires belong
to which net, is exactly the one from before the double-click. -/
theorem finalizeWire_floating_rejected (sc : Scene) (wid : Nat) (w : Wire)
    (hw : sc.lookupWire wid = some w) (hlen : 1 < w.wirePointsRelative.length)
    (hc : ∀ p ∈ sc.connectionPoints,
        p ≠ (w.removeLastPoint).pointsAbsolute.getLastD ⟨0, 0⟩)
    (hwires : ∀ x ∈ sc.wires, x.id ≠ wid →
        x.pointIsOnWire ((w.removeLastPoint).pointsAbsolute.getLastD ⟨0, 0⟩) = false) :
    (sc.finalizeWire wid).floating = true
    ∧ (sc.finalizeWire wid).stillDrawing = some wid
    ∧ (sc.finalizeWire wid).scene.netShape = sc.netShape := by
  unfold Scene.finalizeWire
  simp only [hw]
  rw [if_neg (by omega : ¬(w.wirePointsRelative.length ≤ 1))]
  have hcont : ((sc.updateWire wid Wire.removeLastPoint).connectionPoints.contains
      ((w.removeLastPoint).pointsAbsolute.getLastD ⟨0, 0⟩)) = false := by
    rw [connectionPoints_updateWire]
    rw [Bool.eq_false_iff]
    intro hmem
    have hmem2 : (w.removeLastPoint).pointsAbsolute.getLastD ⟨0, 0⟩
        ∈ sc.connectionPoints := by
      simpa using hmem
    exact hc _ hmem2 rfl
  have hstep : ∀ (fl : Bool) (ids : List Nat),
      (ids.foldl (finalizeStep wid ((w.removeLastPoint).pointsAbsolute.getLastD ⟨0, 0⟩))
        ((sc.updateWire wid Wire.removeLastPoint), fl))
      = ((sc.updateWire wid Wire.removeLastPoint), fl) := by
    intro fl ids
    induction ids with
    | nil => rfl
    | cons xid rest ih =>
        rw [List.foldl_cons]
        have hone : finalizeStep wid ((w.removeLastPoint).pointsAbsolute.getLastD ⟨0, 0⟩)
            ((sc.updateWire wid Wire.removeLastPoint), fl) xid
            = ((sc.updateWire wid Wire.removeLastPoint), fl) := by
          unfold finalizeStep
          by_cases hxw : xid = wid
          · rw [if_pos hxw]
          · rw [if_neg hxw]
            have hlk : (sc.updateWire wid Wire.removeLastPoint).lookupWire xid
                = sc.lookupWire xid :=
              lookupWire_updateWire_ne Wire.removeLastPoint (fun w => rfl) hxw
            rcases hx : sc.lookupWire xid with _ | x
            · rw [show ((sc.updateWire wid Wire.removeLastPoint, fl) :
                  Scene × Bool).1 = sc.updateWire wid Wire.removeLastPoint from rfl,
                hlk, hx]
            · rw [show ((sc.updateWire wid Wire.removeLastPoint, fl) :
                  Scene × Bool).1 = sc.updateWire wid Wire.removeLastPoint from rfl,
                hlk, hx]
              rcases hwlk : (sc.updateWire wid Wire.removeLastPoint).lookupWire wid
                  with _ | wcur
              · rfl
              · have hxid : x.id = xid := lookupWire_id hx
                have hxmem : x ∈ sc.wires := lookupWire_mem hx
                have hoff : x.pointIsOnWire
                    ((w.removeLastPoint).pointsAbsolute.getLastD ⟨0, 0⟩) = false :=
                  hwires x hxmem (by rw [hxid]; exact hxw)
                simp only []
                rw [hoff]
                simp
        rw [hone, ih]
  simp only [hcont, Bool.not_false]
  rw [hstep]
  refine ⟨rfl, rfl, ?_⟩
  show ((sc.updateWire wid Wire.removeLastPoint).updateWire wid
      Wire.removeLastPoint).netShape = sc.netShape
  rw [netShape_updateWire (sc.updateWire wid Wire.removeLastPoint) wid
      Wire.removeLastPoint (fun w => rfl),
    netShape_updateWire sc wid Wire.removeLastPoint (fun w => rfl)]

/-- Concrete scene for the C1 witness: a lone three-point in-progress wire,
no nodes, no other wires. -/
def c1Scene : Scene :=
  ⟨[⟨0, "", false, [⟨1, ⟨0, 0⟩,
      [⟨⟨0, 0⟩, false⟩, ⟨⟨10, 0⟩, false⟩, ⟨⟨20, 0⟩, false⟩], []⟩]⟩], []⟩

/-- C1 witness: the theorem applied to `c1Scene` and wire 1. -/
theorem finalizeWire_floating_rejected_witness :
    (c1Scene.finalizeWire 1).floating = true
    ∧ (c1Scene.finalizeWire 1).stillDrawing = some 1
    ∧ (c1Scene.finalizeWire 1).scene.netShape = c1Scene.netShape := by
  exact finalizeWire_floating_rejected c1Scene 1
    ⟨1, ⟨0, 0⟩, [⟨⟨0, 0⟩, false⟩, ⟨⟨10, 0⟩, false⟩, ⟨⟨20, 0⟩, false⟩], []⟩
    (by decide) (by decide) (by decide) (by decide)

/-! ## C2: connector detach and attach on a user-moved wire point -/

/-- All connectors of the scene paired with their scene positions. -/
def Scene.connectorList (sc : Scene) : List (Pt × Connector) :=
  (sc.nodes.map (fun n => n.connectors.map (fun c => (c.scenePos n, c)))).flatten

/-- Look a connector up by id, returning its scene position and value. -/
def Scene.findConn (sc : Scene) (cid : Nat) : Option (Pt × Connector) :=
  sc.connectorList.find? (fun pc => pc.2.id == cid)

theorem connectorList_map_nodes (sc : Scene) (g : Pt → Connector → Connector)
    (hpos : ∀ p c, (g p c).pos = c.pos) :
    Scene.connectorList { nets := sc.nets, nodes := sc.nodes.map (fun n =>
        { n with connectors := n.connectors.map (fun c => g (c.scenePos n) c) }) }
      = sc.connectorList.map (fun pc => (pc.1, g pc.1 pc.2)) := by
  unfold Scene.connectorList
  show ((sc.nodes.map _).map _).flatten = _
  rw [List.map_map, List.map_flatten, List.map_map]
  congr 1
  apply List.map_congr_left
  intro n _
  simp only [Function.comp, List.map_map]
  apply List.map_congr_left
  intro c _
  simp only [Function.comp]
  have hsp : ∀ (m : Node), m.pos = n.pos
      → (g (c.scenePos n) c).scenePos m = c.scenePos n := by
    intro m hm
    unfold Connector.scenePos
    rw [hm, hpos]
  rw [hsp ⟨n.id, n.pos, n.connectors.map (fun c => g (c.scenePos n) c)⟩ rfl]

theorem findConn_of_nodes_eq {sc sc' : Scene} (h : sc'.nodes = sc.nodes) (cid : Nat) :
    sc'.findConn cid = sc.findConn cid := by
  unfold Scene.findConn Scene.connectorList
  rw [h]

theorem qIndexOf_get? {α : Type} [DecidableEq α] (l : List α) (i : Nat) (a : α)
    (hget : l.get? i = some a) (hnd : l.Nodup) : qIndexOf l a = (i : ℤ) := by
  unfold qIndexOf
  have haux : ∀ (l : List α) (i k : Nat) (a : α), l.get? i = some a → l.Nodup →
      idxAux a l k = some (i + k) := by
    intro l
    induction l with
    | nil => intro i k a h _; simp at h
    | cons b rest ih =>
        intro i k a hget hnd
        rcases i with _ | j
        · simp only [List.get?] at hget
          injection hget with hba
          unfold idxAux
          rw [if_pos hba]
          simp
        · simp only [List.get?] at hget
          have hmem : a ∈ rest := by
            have := List.get?_mem hget
            exact this
          have hba : ¬(b = a) := by
            intro hEq
            rw [List.nodup_cons] at hnd
            exact hnd.1 (hEq ▸ hmem)
          unfold idxAux
          rw [if_neg hba]
          rw [List.nodup_cons] at hnd
          have := ih j (k + 1) a hget hnd.2
          rw [this]
          congr 1
          omega
  rw [haux l i 0 a hget hnd]
  simp

theorem nets_detachConnPass (sc : Scene) (wid index : Nat) :
    (sc.detachConnPass wid index).nets = sc.nets := by
  unfold Scene.detachConnPass
  rcases h : sc.lookupWire wid with _ | w <;> simp only [h]

theorem nets_attachConnPass (sc : Scene) (wid : Nat) (pt : WirePoint) :
    (sc.attachConnPass wid pt).nets = sc.nets := by
  unfold Scene.attachConnPass
  rcases h : sc.lookupWire wid with _ | w <;> simp only [h]

theorem lookupWire_detachConnPass (sc : Scene) (wid index x : Nat) :
    (sc.detachConnPass wid index).lookupWire x = sc.lookupWire x := by
  unfold Scene.lookupWire Scene.wires
  rw [nets_detachConnPass]

theorem foldl_nodes_preserved {α : Type} (f : Scene → α → Scene)
    (hf : ∀ s a, (f s a).nodes = s.nodes) (l : List α) :
    ∀ s : Scene, (l.foldl f s).nodes = s.nodes := by
  induction l with
  | nil => intro s; rfl
  | cons a rest ih =>
      intro s
      rw [List.foldl_cons, ih (f s a), hf s a]

theorem nodes_detachWiresPass (sc : Scene) (wid index : Nat) :
    (sc.detachWiresPass wid index).nodes = sc.nodes := by
  unfold Scene.detachWiresPass
  rcases h : sc.lookupWire wid with _ | w
  · simp only [h]
  · simp only [h]
    by_cases hEnd : index = 0 ∨ index = w.pointsAbsolute.length - 1
    · rw [if_pos hEnd]
      by_cases hJ : (w.wirePointsRelative.getD index ⟨⟨0, 0⟩, false⟩).isJunction = true
      · rw [if_pos hJ]
        apply foldl_nodes_preserved
        intro s xid
        unfold detachStep
        by_cases hxw : xid = wid
        · rw [if_pos hxw]
        · rw [if_neg hxw]
          rcases h1 : s.lookupWire xid with _ | x
          · rfl
          · rcases h2 : s.lookupWire wid with _ | wcur
            · rfl
            · simp only []
              by_cases h3 : x.connectedWires.contains wid = true
              · rw [if_pos h3]
                rw [nodes_updateWire]
                by_cases h4 : (wcur.junctions.any (fun p =>
                    decide (qIndexOf wcur.wirePointsAbsolute p ≠ (index : ℤ))
                    && x.pointIsOnWire p.pos)) = true
                · rw [if_pos h4]
                · rw [if_neg h4]
                  exact nodes_disconnectWire s wid xid
              · rw [if_neg h3]
      · rw [if_neg hJ]
    · rw [if_neg hEnd]

theorem nodes_attachWiresPass (sc : Scene) (wid index : Nat) :
    (sc.attachWiresPass wid index).nodes = sc.nodes := by
  unfold Scene.attachWiresPass
  rcases h : sc.lookupWire wid with _ | w
  · simp only [h]
  · simp only [h]
    by_cases hEnd : index = 0 ∨ index = w.wirePointsAbsolute.length - 1
    · rw [if_pos hEnd]
      apply foldl_nodes_preserved
      intro s xid
      by_cases hxw : xid = wid
      · rw [if_pos hxw]
      · rw [if_neg hxw]
        rcases h1 : s.lookupWire xid with _ | x
        · rfl
        · rcases h2 : s.lookupWire wid with _ | wcur
          · rfl
          · simp only []
            by_cases h3 : (x.pointIsOnWire (wcur.wirePointsAbsolute.getD index
                ⟨⟨0, 0⟩, false⟩).pos && !(wcur.connectedWires.contains xid)) = true
            · rw [if_pos h3]
              rw [nodes_connectWire, nodes_updateWire]
            · rw [if_neg h3]
    · rw [if_neg hEnd]

theorem find?_cid_map (l : List (Pt × Connector)) (g : Pt × Connector → Pt × Connector)
    (hg : ∀ pc, (g pc).2.id = pc.2.id) (cid : Nat) :
    (l.map g).find? (fun pc => pc.2.id == cid)
      = (l.find? (fun pc => pc.2.id == cid)).map g := by
  rw [List.find?_map]
  have hfun : ((fun pc => pc.2.id == cid) ∘ g)
      = (fun (pc : Pt × Connector) => pc.2.id == cid) := by
    funext pc
    simp [Function.comp, hg]
  rw [hfun]

theorem Connector.attachWire_pos (c : Connector) (w : Wire) (i : ℤ) :
    (c.attachWire w i).pos = c.pos := by
  unfold Connector.attachWire
  split <;> rfl

theorem connectorList_detachConnPass (sc : Scene) (wid index : Nat) (w : Wire)
    (hw : sc.lookupWire wid = some w) :
    (sc.detachConnPass wid index).connectorList
      = sc.connectorList.map (fun pc =>
          if pc.2.wire = some wid ∧ pc.2.wirePointIndex = (index : ℤ)
             ∧ pc.1 ≠ w.pointsAbsolute.getD index ⟨0, 0⟩
          then (pc.1, pc.2.detachWire) else pc) := by
  have h1 : (sc.detachConnPass wid index).connectorList
      = sc.connectorList.map (fun pc =>
          (pc.1, if pc.2.wire = some wid ∧ pc.2.wirePointIndex = (index : ℤ)
             ∧ pc.1 ≠ w.pointsAbsolute.getD index ⟨0, 0⟩
          then pc.2.detachWire else pc.2)) := by
    unfold Scene.detachConnPass
    simp only [hw]
    exact connectorList_map_nodes sc
      (fun p c => if c.wire = some wid ∧ c.wirePointIndex = (index : ℤ)
          ∧ p ≠ w.pointsAbsolute.getD index ⟨0, 0⟩ then c.detachWire else c)
      (by
        intro p c
        simp only []
        split <;> rfl)
  rw [h1]
  apply List.map_congr_left
  intro pc _
  split
  · rfl
  · rfl

theorem connectorList_attachConnPass (sc : Scene) (wid : Nat) (pt : WirePoint) (w : Wire)
    (hw : sc.lookupWire wid = some w) :
    (sc.attachConnPass wid pt).connectorList
      = sc.connectorList.map (fun pc =>
          if pc.1 = w.pos.add pt.pos
          then (pc.1, pc.2.attachWire w (qIndexOf w.wirePointsRelative pt)) else pc) := by
  have h1 : (sc.attachConnPass wid pt).connectorList
      = sc.connectorList.map (fun pc =>
          (pc.1, if pc.1 = w.pos.add pt.pos
          then pc.2.attachWire w (qIndexOf w.wirePointsRelative pt) else pc.2)) := by
    unfold Scene.attachConnPass
    simp only [hw]
    exact connectorList_map_nodes sc
      (fun p c => if p = w.pos.add pt.pos
          then c.attachWire w (qIndexOf w.wirePointsRelative pt) else c)
      (by
        intro p c
        simp only []
        split
        · exact Connector.attachWire_pos _ _ _
        · rfl)
  rw [h1]
  apply List.map_congr_left
  intro pc _
  split
  · rfl
  · rfl

/-- C2 (amended; see the counterexample for the original): when the user
moves point `index` of wire `wid`, first every connector bound to
`(wid, index)` whose scene position no longer equals the wire's indexed
point is detached, and then every connector whose scene position equals the
new location of `(wid, index)` — whatever its current binding, so also a
connector bound to another wire, provided only that its stored point index
passes the attachWire stale-index guard — ends up bound to `(wid, index)`;
connectors that neither sit at the new location nor are stale-bound keep
their binding. -/
theorem wirePointMovedByUser_connectors (sc : Scene) (wid index : Nat)
    (w : Wire) (pt : WirePoint) (cid : Nat) (p : Pt) (c : Connector)
    (hw : sc.lookupWire wid = some w)
    (hpt : w.wirePointsRelative.get? index = some pt)
    (hnd : w.wirePointsRelative.Nodup)
    (hfc : sc.findConn cid = some (p, c)) :
    ((c.wire = some wid ∧ c.wirePointIndex = (index : ℤ) ∧ p ≠ w.pos.add pt.pos)
        → (sc.wirePointMovedByUser wid index).findConn cid = some (p, c.detachWire))
    ∧ ((p = w.pos.add pt.pos ∧ ¬(c.wirePointIndex < -1)
        ∧ c.wirePointIndex ≤ (w.wirePointsRelative.length : ℤ))
        → (sc.wirePointMovedByUser wid index).findConn cid
            = some (p, { c with wire := some wid, wirePointIndex := (index : ℤ) }))
    ∧ ((p ≠ w.pos.add pt.pos
        ∧ ¬(c.wire = some wid ∧ c.wirePointIndex = (index : ℤ)))
        → (sc.wirePointMovedByUser wid index).findConn cid = some (p, c)) := by
  have habs : w.pointsAbsolute.getD index ⟨0, 0⟩ = w.pos.add pt.pos := by
    unfold Wire.pointsAbsolute
    rw [List.getD_eq_getElem?_getD, List.getElem?_map]
    unfold Wire.wirePointsRelative at hpt
    rw [← List.get?_eq_getElem?, hpt]
    rfl
  -- the whole handler leaves the same connectors as passes 1-2 alone
  have hnodes : (sc.wirePointMovedByUser wid index).findConn cid
      = ((sc.detachConnPass wid index).attachConnPass wid pt).findConn cid := by
    unfold Scene.wirePointMovedByUser
    simp only [hw, hpt]
    apply findConn_of_nodes_eq
    rw [nodes_attachWiresPass, nodes_detachWiresPass]
  have hlk1 : (sc.detachConnPass wid index).lookupWire wid = some w := by
    rw [lookupWire_detachConnPass]
    exact hw
  have hcl : ((sc.detachConnPass wid index).attachConnPass wid pt).connectorList
      = (sc.connectorList.map (fun pc =>
          if pc.2.wire = some wid ∧ pc.2.wirePointIndex = (index : ℤ)
             ∧ pc.1 ≠ w.pointsAbsolute.getD index ⟨0, 0⟩
          then (pc.1, pc.2.detachWire) else pc)).map (fun pc =>
          if pc.1 = w.pos.add pt.pos
          then (pc.1, pc.2.attachWire w (qIndexOf w.wirePointsRelative pt)) else pc) := by
    rw [connectorList_attachConnPass _ wid pt w hlk1,
      connectorList_detachConnPass sc wid index w hw]
  have hkey1 : ∀ pc : Pt × Connector,
      ((if pc.2.wire = some wid ∧ pc.2.wirePointIndex = (index : ℤ)
          ∧ pc.1 ≠ w.pointsAbsolute.getD index ⟨0, 0⟩
        then (pc.1, pc.2.detachWire) else pc)).2.id = pc.2.id := by
    intro pc
    split <;> rfl
  have hkey2 : ∀ pc : Pt × Connector,
      ((if pc.1 = w.pos.add pt.pos
        then (pc.1, pc.2.attachWire w (qIndexOf w.wirePointsRelative pt)) else pc)).2.id
      = pc.2.id := by
    intro pc
    split
    · show (pc.2.attachWire w _).id = pc.2.id
      unfold Connector.attachWire
      split <;> rfl
    · rfl
  have hfind : ((sc.detachConnPass wid index).attachConnPass wid pt).findConn cid
      = some ((fun pc =>
          if pc.1 = w.pos.add pt.pos
          then (pc.1, pc.2.attachWire w (qIndexOf w.wirePointsRelative pt)) else pc)
        ((fun pc =>
          if pc.2.wire = some wid ∧ pc.2.wirePointIndex = (index : ℤ)
             ∧ pc.1 ≠ w.pointsAbsolute.getD index ⟨0, 0⟩
          then (pc.1, pc.2.detachWire) else pc) (p, c))) := by
    unfold Scene.findConn at hfc ⊢
    rw [hcl, find?_cid_map _ _ hkey2, find?_cid_map _ _ hkey1, hfc]
    rfl
  have hidx : qIndexOf w.wirePointsRelative pt = (index : ℤ) :=
    qIndexOf_get? _ index pt hpt hnd
  have hwid : w.id = wid := lookupWire_id hw
  refine ⟨?_, ?_, ?_⟩
  · intro hcond
    rw [hnodes, hfind]
    simp only []
    have hc1 : c.wire = some wid ∧ c.wirePointIndex = (index : ℤ)
        ∧ p ≠ w.pointsAbsolute.getD index ⟨0, 0⟩ := by
      refine ⟨hcond.1, hcond.2.1, ?_⟩
      rw [habs]
      exact hcond.2.2
    rw [if_pos hc1]
    simp only []
    rw [if_neg hcond.2.2]
  · intro hcond
    rw [hnodes, hfind]
    simp only []
    have hc1 : ¬(c.wire = some wid ∧ c.wirePointIndex = (index : ℤ)
        ∧ p ≠ w.pointsAbsolute.getD index ⟨0, 0⟩) := by
      intro hcon
      apply hcon.2.2
      rw [habs]
      exact hcond.1
    rw [if_neg hc1]
    simp only []
    rw [if_pos hcond.1]
    unfold Connector.attachWire
    rw [if_neg ?_]
    · rw [hidx, hwid]
    · unfold Wire.wirePointsRelative
      intro hcon
      rcases hcon with hlt | hgt
      · exact hcond.2.1 hlt
      · have hle := hcond.2.2
        unfold Wire.wirePointsRelative at hle
        omega
  · intro hcond
    rw [hnodes, hfind]
    simp only []
    have hc1 : ¬(c.wire = some wid ∧ c.wirePointIndex = (index : ℤ)
        ∧ p ≠ w.pointsAbsolute.getD index ⟨0, 0⟩) := by
      intro hcon
      exact hcond.2 ⟨hcon.1, hcon.2.1⟩
    rw [if_neg hc1]
    simp only []
    rw [if_neg hcond.1]

/-- Witness for the amended C2 theorem: on the counterexample scene the
connector bound to wire 6 sits at the new location of point 1 of wire 1 and
passes the stale-index guard, so it ends up rebound to (1, 1). -/
theorem wirePointMovedByUser_connectors_witness :
    (c2CexScene.wirePointMovedByUser 1 1).findConn 100
      = some (⟨10, 0⟩, ⟨100, ⟨10, 0⟩, some 1, 1⟩) :=
  (wirePointMovedByUser_connectors c2CexScene 1 1
      ⟨1, ⟨0, 0⟩, [⟨⟨0, 0⟩, false⟩, ⟨⟨10, 0⟩, false⟩], []⟩ ⟨⟨10, 0⟩, false⟩
      100 ⟨10, 0⟩ ⟨100, ⟨10, 0⟩, some 6, 0⟩
      (by decide) (by decide) (by decide) (by decide)).2.1
    (by decide)

/-- C6 (amended; see the counterexample for the original): the direction of
the directly-connected record is the reverse of the claim.  Scene::connectWire
(scene.cpp 771-779) records the MOVER wire in the HOST wire's
directly-connected set and leaves the mover's own set unchanged; at the
junction-form call site (scene.cpp 682-697) the host is `otherWire` — the
wire being landed on — so when wire A's endpoint lies on wire B it is B that
records A, and A's set does not gain B. -/
theorem connectWire_direction (sc : Scene) (hostId moverId : Nat)
    (wh wm : Wire)
    (hndW : sc.wireIds.Nodup) (hndN : sc.netIds.Nodup)
    (hne : moverId ≠ hostId)
    (hh : sc.lookupWire hostId = some wh)
    (hm : sc.lookupWire moverId = some wm) :
    moverId ∈ (sc.connectWire hostId moverId).connOf hostId
    ∧ (sc.connectWire hostId moverId).connOf moverId = wm.connectedWires := by
  constructor
  · unfold Scene.connOf
    rw [lookupWire_connectWire sc hostId moverId hostId hndW hndN,
        lookupWire_updateWire_self (fun w => w.connectWire moverId)
          (fun w => Wire.connectWire_id w moverId) hh]
    show moverId ∈ (wh.connectWire moverId).connectedWires
    unfold Wire.connectWire
    split
    · next hcon => simpa using hcon
    · simp
  · unfold Scene.connOf
    rw [lookupWire_connectWire sc hostId moverId moverId hndW hndN,
        lookupWire_updateWire_ne (fun w => w.connectWire moverId)
          (fun w => Wire.connectWire_id w moverId) hne, hm]

/-- Witness for the amended C6 theorem on the counterexample scene: after
connectWire(host 6, mover 5), wire 6 holds 5 in its directly-connected set
and wire 5's set is still empty. -/
theorem connectWire_direction_witness :
    5 ∈ (c6Scene.connectWire 6 5).connOf 6
    ∧ (c6Scene.connectWire 6 5).connOf 5 = [] :=
  connectWire_direction c6Scene 6 5 c6WireB c6WireA (by decide) (by decide)
    (by decide) (by decide) (by decide)

theorem Wire.setPointIsJunction_id (w : Wire) (i : Nat) (b : Bool) :
    (w.setPointIsJunction i b).id = w.id := rfl

/-- Clearing (or setting) the same junction flag twice equals doing it once. -/
theorem Wire.setPointIsJunction_idem (w : Wire) (i : Nat) (b : Bool) :
    (w.setPointIsJunction i b).setPointIsJunction i b = w.setPointIsJunction i b := by
  unfold Wire.setPointIsJunction
  by_cases hlt : i < w.points.length
  · have hget : ((w.points.set i ⟨(w.points.getD i ⟨⟨0, 0⟩, false⟩).pos, b⟩).getD i
        ⟨⟨0, 0⟩, false⟩)
        = ⟨(w.points.getD i ⟨⟨0, 0⟩, false⟩).pos, b⟩ := by
      rw [List.getD_eq_getElem?_getD, List.getElem?_set_self (by simpa using hlt)]
      rfl
    rw [hget, List.set_set]
  · have hle : w.points.length ≤ i := Nat.le_of_not_lt hlt
    rw [List.set_eq_of_length_le hle, List.set_eq_of_length_le hle]

/-- qIndexOf finds an actual occurrence when the element is present. -/
theorem qIndexOf_mem {α : Type} [DecidableEq α] {l : List α} {a : α} (h : a ∈ l) :
    ∃ i : Nat, qIndexOf l a = (i : ℤ) ∧ l.get? i = some a := by
  have haux : ∀ (l : List α) (k : Nat), a ∈ l →
      ∃ i, idxAux a l k = some (i + k) ∧ l.get? i = some a := by
    intro l
    induction l with
    | nil => intro k h2; simp at h2
    | cons b rest ih =>
        intro k hmem
        by_cases hba : b = a
        · refine ⟨0, ?_, ?_⟩
          · unfold idxAux
            rw [if_pos hba]
            simp
          · simp [hba]
        · have hr : a ∈ rest := by
            rcases List.mem_cons.mp hmem with h1 | h2
            · exact absurd h1.symm hba
            · exact h2
          obtain ⟨i, hidx, hget⟩ := ih (k + 1) hr
          refine ⟨i + 1, ?_, ?_⟩
          · unfold idxAux
            rw [if_neg hba, hidx]
            congr 1
            omega
          · simpa using hget
  obtain ⟨i, hidx, hget⟩ := haux l 0 h
  refine ⟨i, ?_, hget⟩
  unfold qIndexOf
  simp [hidx]

/-- The keep condition of claim C3, stated the way the claim words it: some
junction point of the moved wire `w` at an index other than the moved one
still lies on wire `x`. -/
def junctionKeeps (w x : Wire) (index : Nat) : Prop :=
  ∃ j, j < w.wirePointsAbsolute.length ∧ j ≠ index
    ∧ (w.wirePointsAbsolute.getD j ⟨⟨0, 0⟩, false⟩).isJunction = true
    ∧ x.pointIsOnWire (w.wirePointsAbsolute.getD j ⟨⟨0, 0⟩, false⟩).pos = true

theorem wirePointsAbsolute_length (w : Wire) :
    w.wirePointsAbsolute.length = w.points.length := by
  unfold Wire.wirePointsAbsolute
  simp

/-- The loop's keep test, on a wire whose absolute points are distinct,
decides exactly the claim's keep condition. -/
theorem keepAny_iff (w x : Wire) (index : Nat)
    (hnd : w.wirePointsAbsolute.Nodup) :
    ((w.junctions.any (fun p =>
        (qIndexOf w.wirePointsAbsolute p ≠ (index : ℤ))
        && x.pointIsOnWire p.pos)) = true)
    ↔ junctionKeeps w x index := by
  unfold Wire.junctions junctionKeeps
  rw [List.any_eq_true]
  constructor
  · rintro ⟨p, hpmem, hpred⟩
    rw [List.mem_filter] at hpmem
    obtain ⟨hpabs, hpj⟩ := hpmem
    rw [Bool.and_eq_true] at hpred
    obtain ⟨hq, hon⟩ := hpred
    obtain ⟨j, hjget⟩ := List.mem_iff_get?.mp hpabs
    have hjq : qIndexOf w.wirePointsAbsolute p = (j : ℤ) :=
      qIndexOf_get? _ j p hjget hnd
    have hjne : j ≠ index := by
      intro hEq
      rw [hjq, hEq] at hq
      simp at hq
    have hjlt : j < w.wirePointsAbsolute.length := by
      rw [List.get?_eq_getElem?] at hjget
      exact (List.getElem?_eq_some.mp hjget).1
    have hgetD : w.wirePointsAbsolute.getD j ⟨⟨0, 0⟩, false⟩ = p := by
      rw [List.getD_eq_getElem?_getD, ← List.get?_eq_getElem?, hjget]
      rfl
    exact ⟨j, hjlt, hjne, by rw [hgetD]; exact hpj, by rw [hgetD]; exact hon⟩
  · rintro ⟨j, hjlt, hjne, hjflag, hjon⟩
    have hjget : w.wirePointsAbsolute.get? j
        = some (w.wirePointsAbsolute.getD j ⟨⟨0, 0⟩, false⟩) := by
      rw [List.get?_eq_getElem?, List.getElem?_eq_getElem hjlt,
        List.getD_eq_getElem?_getD, List.getElem?_eq_getElem hjlt]
      rfl
    refine ⟨w.wirePointsAbsolute.getD j ⟨⟨0, 0⟩, false⟩, ?_, ?_⟩
    · rw [List.mem_filter]
      exact ⟨List.get?_mem hjget, hjflag⟩
    · rw [Bool.and_eq_true]
      refine ⟨?_, hjon⟩
      have hq := qIndexOf_get? _ j _ hjget hnd
      rw [hq]
      simp [hjne]

/-- Setting the junction flag at an in-range index changes the absolute
point list pointwise at that index, keeping its position. -/
theorem wirePointsAbsolute_setPointIsJunction (w : Wire) (i : Nat) (b : Bool)
    (hlt : i < w.points.length) :
    (w.setPointIsJunction i b).wirePointsAbsolute
      = w.wirePointsAbsolute.set i
          ⟨(w.wirePointsAbsolute.getD i ⟨⟨0, 0⟩, false⟩).pos, b⟩ := by
  unfold Wire.setPointIsJunction Wire.wirePointsAbsolute
  simp only []
  rw [List.map_set]
  congr 1
  have h1 : w.points.getD i ⟨⟨0, 0⟩, false⟩ = w.points[i] := by
    rw [List.getD_eq_getElem?_getD, List.getElem?_eq_getElem hlt]
    rfl
  have hltm : i < (w.points.map (fun p => (⟨w.pos.add p.pos, p.isJunction⟩ : WirePoint))).length := by
    simpa using hlt
  have h2 : (w.points.map (fun p => (⟨w.pos.add p.pos, p.isJunction⟩ : WirePoint))).getD i
      ⟨⟨0, 0⟩, false⟩
      = ⟨w.pos.add (w.points[i]).pos, (w.points[i]).isJunction⟩ := by
    rw [List.getD_eq_getElem?_getD, List.getElem?_eq_getElem hltm]
    simp
  rw [h1, h2]

/-- After clearing the junction flag at the moved index, the loop's keep test
still decides the claim's keep condition (stated over the original wire). -/
theorem keepAny_clear_iff (w x : Wire) (index : Nat)
    (hnd : w.wirePointsAbsolute.Nodup) (hlt : index < w.points.length) :
    (((w.setPointIsJunction index false).junctions.any (fun p =>
        (qIndexOf (w.setPointIsJunction index false).wirePointsAbsolute p ≠ (index : ℤ))
        && x.pointIsOnWire p.pos)) = true)
    ↔ junctionKeeps w x index := by
  have habs := wirePointsAbsolute_setPointIsJunction w index false hlt
  have hltA : index < w.wirePointsAbsolute.length := by
    rw [wirePointsAbsolute_length]
    exact hlt
  unfold Wire.junctions junctionKeeps
  rw [habs, List.any_eq_true]
  constructor
  · rintro ⟨p, hpmem, hpred⟩
    rw [List.mem_filter] at hpmem
    obtain ⟨hpabs, hpj⟩ := hpmem
    rw [Bool.and_eq_true] at hpred
    obtain ⟨j, hjget⟩ := List.mem_iff_get?.mp hpabs
    have hjne : j ≠ index := by
      intro hEq
      subst hEq
      rw [List.get?_eq_getElem?, List.getElem?_set_self (by simpa using hltA)] at hjget
      injection hjget with hjp
      rw [← hjp] at hpj
      simp at hpj
    have hjget2 : w.wirePointsAbsolute.get? j = some p := by
      rw [List.get?_eq_getElem?] at hjget ⊢
      rw [List.getElem?_set_ne (Ne.symm hjne)] at hjget
      exact hjget
    have hjlt : j < w.wirePointsAbsolute.length := by
      rw [List.get?_eq_getElem?] at hjget2
      exact (List.getElem?_eq_some.mp hjget2).1
    have hgetD : w.wirePointsAbsolute.getD j ⟨⟨0, 0⟩, false⟩ = p := by
      rw [List.getD_eq_getElem?_getD, ← List.get?_eq_getElem?, hjget2]
      rfl
    exact ⟨j, hjlt, hjne, by rw [hgetD]; exact hpj, by rw [hgetD]; exact hpred.2⟩
  · rintro ⟨j, hjlt, hjne, hjflag, hjon⟩
    have hjget : w.wirePointsAbsolute.get? j
        = some (w.wirePointsAbsolute.getD j ⟨⟨0, 0⟩, false⟩) := by
      rw [List.get?_eq_getElem?, List.getElem?_eq_getElem hjlt,
        List.getD_eq_getElem?_getD, List.getElem?_eq_getElem hjlt]
      rfl
    have hjget2 : (w.wirePointsAbsolute.set index
          ⟨(w.wirePointsAbsolute.getD index ⟨⟨0, 0⟩, false⟩).pos, false⟩).get? j
        = some (w.wirePointsAbsolute.getD j ⟨⟨0, 0⟩, false⟩) := by
      rw [List.get?_eq_getElem?, List.getElem?_set_ne (Ne.symm hjne),
        ← List.get?_eq_getElem?]
      exact hjget
    have hpmem2 := List.get?_mem hjget2
    refine ⟨w.wirePointsAbsolute.getD j ⟨⟨0, 0⟩, false⟩,
      List.mem_filter.mpr ⟨hpmem2, hjflag⟩, ?_⟩
    rw [Bool.and_eq_true]
    refine ⟨?_, hjon⟩
    obtain ⟨i, hiq, higet⟩ := qIndexOf_mem hpmem2
    rw [hiq]
    have hine : i ≠ index := by
      intro hEq
      subst hEq
      rw [List.get?_eq_getElem?, List.getElem?_set_self (by simpa using hltA)] at higet
      injection higet with hip
      have hfv := congrArg WirePoint.isJunction hip
      rw [hjflag] at hfv
      simp at hfv
    simp [hine]

/-- One detach-loop step leaves every wire other than `wid` and the visited
wire untouched. -/
theorem detachStep_lookup_other (s : Scene) (wid index y z : Nat)
    (hz1 : z ≠ wid) (hz2 : z ≠ y)
    (hndW : s.wireIds.Nodup) (hndN : s.netIds.Nodup) :
    (detachStep wid index s y).lookupWire z = s.lookupWire z := by
  unfold detachStep
  by_cases hy : y = wid
  · rw [if_pos hy]
  · rw [if_neg hy]
    rcases h1 : s.lookupWire y with _ | x
    · rfl
    · rcases h2 : s.lookupWire wid with _ | wcur
      · rfl
      · simp only []
        by_cases h3 : x.connectedWires.contains wid = true
        · rw [if_pos h3]
          by_cases h4 : (wcur.junctions.any (fun p =>
              decide (qIndexOf wcur.wirePointsAbsolute p ≠ (index : ℤ))
              && x.pointIsOnWire p.pos)) = true
          · rw [if_pos h4]
            exact lookupWire_updateWire_ne
              (fun w => w.setPointIsJunction index false) (fun w => rfl) hz1
          · rw [if_neg h4]
            rw [lookupWire_updateWire_ne
                (fun w => w.setPointIsJunction index false) (fun w => rfl) hz1,
              lookupWire_disconnectWire s wid y z hndW hndN]
            exact lookupWire_updateWire_ne
              (fun w => w.disconnectWire wid) (fun w => rfl) hz2
        · rw [if_neg h3]

/-- One detach-loop step either leaves the moved wire alone or clears its
junction flag at the moved index. -/
theorem detachStep_lookup_wid (s : Scene) (wid index y : Nat)
    (hndW : s.wireIds.Nodup) (hndN : s.netIds.Nodup) :
    (detachStep wid index s y).lookupWire wid = s.lookupWire wid
    ∨ (detachStep wid index s y).lookupWire wid
        = (s.lookupWire wid).map (fun w => w.setPointIsJunction index false) := by
  unfold detachStep
  by_cases hy : y = wid
  · rw [if_pos hy]
    exact Or.inl rfl
  · rw [if_neg hy]
    rcases h1 : s.lookupWire y with _ | x
    · exact Or.inl rfl
    · rcases h2 : s.lookupWire wid with _ | wcur
      · exact Or.inl h2
      · simp only []
        by_cases h3 : x.connectedWires.contains wid = true
        · rw [if_pos h3]
          refine Or.inr ?_
          by_cases h4 : (wcur.junctions.any (fun p =>
              decide (qIndexOf wcur.wirePointsAbsolute p ≠ (index : ℤ))
              && x.pointIsOnWire p.pos)) = true
          · rw [if_pos h4]
            rw [lookupWire_updateWire_self
              (fun w => w.setPointIsJunction index false) (fun w => rfl) h2]
            rfl
          · rw [if_neg h4]
            have h5 : (s.disconnectWire wid y).lookupWire wid = some wcur := by
              rw [lookupWire_disconnectWire s wid y wid hndW hndN,
                lookupWire_updateWire_ne
                  (fun w => w.disconnectWire wid) (fun w => rfl)
                  (fun hEq => hy hEq.symm)]
              exact h2
            rw [lookupWire_updateWire_self
              (fun w => w.setPointIsJunction index false) (fun w => rfl) h5]
            rfl
        · rw [if_neg h3]
          exact Or.inl h2

/-- One detach-loop step keeps the wire-id multiset and the net-id
distinctness. -/
theorem detachStep_inv (sc s : Scene) (wid index y : Nat)
    (hperm : s.wireIds.Perm sc.wireIds) (hndN : s.netIds.Nodup)
    (hndW : s.wireIds.Nodup) :
    (detachStep wid index s y).wireIds.Perm sc.wireIds
    ∧ (detachStep wid index s y).netIds.Nodup := by
  unfold detachStep
  by_cases hy : y = wid
  · rw [if_pos hy]
    exact ⟨hperm, hndN⟩
  · rw [if_neg hy]
    rcases h1 : s.lookupWire y with _ | x
    · exact ⟨hperm, hndN⟩
    · rcases h2 : s.lookupWire wid with _ | wcur
      · exact ⟨hperm, hndN⟩
      · simp only []
        by_cases h3 : x.connectedWires.contains wid = true
        · rw [if_pos h3]
          by_cases h4 : (wcur.junctions.any (fun p =>
              decide (qIndexOf wcur.wirePointsAbsolute p ≠ (index : ℤ))
              && x.pointIsOnWire p.pos)) = true
          · rw [if_pos h4]
            constructor
            · rw [wireIds_updateWire s wid
                (fun w => w.setPointIsJunction index false) (fun w => rfl)]
              exact hperm
            · rw [netIds_updateWire]
              exact hndN
          · rw [if_neg h4]
            constructor
            · rw [wireIds_updateWire (s.disconnectWire wid y) wid
                (fun w => w.setPointIsJunction index false) (fun w => rfl)]
              exact (wireIds_disconnectWire_perm s wid y hndN).trans hperm
            · rw [netIds_updateWire]
              exact netIds_disconnectWire_nodup s wid y hndN
        · rw [if_neg h3]
          exact ⟨hperm, hndN⟩

theorem foldl_detach_inv (sc : Scene) (wid index : Nat) (hndW0 : sc.wireIds.Nodup) :
    ∀ (l : List Nat) (s : Scene),
      s.wireIds.Perm sc.wireIds → s.netIds.Nodup →
      (l.foldl (detachStep wid index) s).wireIds.Perm sc.wireIds
      ∧ (l.foldl (detachStep wid index) s).netIds.Nodup := by
  intro l
  induction l with
  | nil => intro s hp hn; exact ⟨hp, hn⟩
  | cons a rest ih =>
      intro s hp hn
      rw [List.foldl_cons]
      have hndW : s.wireIds.Nodup := hp.nodup_iff.mpr hndW0
      obtain ⟨h1, h2⟩ := detachStep_inv sc s wid index a hp hn hndW
      exact ih _ h1 h2

theorem foldl_detach_lookup_other (sc : Scene) (wid index z : Nat)
    (hndW0 : sc.wireIds.Nodup) (hz1 : z ≠ wid) :
    ∀ (l : List Nat) (s : Scene),
      z ∉ l → s.wireIds.Perm sc.wireIds → s.netIds.Nodup →
      (l.foldl (detachStep wid index) s).lookupWire z = s.lookupWire z := by
  intro l
  induction l with
  | nil => intro s _ _ _; rfl
  | cons a rest ih =>
      intro s hzl hp hn
      rw [List.foldl_cons]
      have hndW : s.wireIds.Nodup := hp.nodup_iff.mpr hndW0
      have hz2 : z ≠ a := fun h => hzl (h ▸ List.mem_cons_self a rest)
      obtain ⟨h1, h2⟩ := detachStep_inv sc s wid index a hp hn hndW
      rw [ih _ (fun h => hzl (List.mem_cons_of_mem a h)) h1 h2]
      exact detachStep_lookup_other s wid index a z hz1 hz2 hndW hn

theorem foldl_detach_lookup_wid (sc : Scene) (wid index : Nat)
    (hndW0 : sc.wireIds.Nodup) :
    ∀ (l : List Nat) (s : Scene),
      s.wireIds.Perm sc.wireIds → s.netIds.Nodup →
      (l.foldl (detachStep wid index) s).lookupWire wid = s.lookupWire wid
      ∨ (l.foldl (detachStep wid index) s).lookupWire wid
          = (s.lookupWire wid).map (fun w => w.setPointIsJunction index false) := by
  intro l
  induction l with
  | nil => intro s _ _; exact Or.inl rfl
  | cons a rest ih =>
      intro s hp hn
      rw [List.foldl_cons]
      have hndW : s.wireIds.Nodup := hp.nodup_iff.mpr hndW0
      obtain ⟨h1, h2⟩ := detachStep_inv sc s wid index a hp hn hndW
      have hmap : ∀ (o : Option Wire),
          (o.map (fun w => w.setPointIsJunction index false)).map
              (fun w => w.setPointIsJunction index false)
            = o.map (fun w => w.setPointIsJunction index false) := by
        intro o
        cases o with
        | none => rfl
        | some ww => simp [Wire.setPointIsJunction_idem]
      rcases ih (detachStep wid index s a) h1 h2 with hA | hA <;>
        rcases detachStep_lookup_wid s wid index a hndW hn with hB | hB
      · exact Or.inl (hA.trans hB)
      · exact Or.inr (hA.trans hB)
      · exact Or.inr (hA.trans (congrArg _ hB))
      · refine Or.inr ?_
        rw [hA, hB]
        exact hmap _

/-- The detach step at a wire that records `wid` as connected, with both
records visible: it clears the moved wire's junction flag and, unless the
keep test fires, first breaks the connection. -/
theorem detachStep_at_connected (s : Scene) (wid index xid : Nat) (x wcur : Wire)
    (hne : xid ≠ wid)
    (hx : s.lookupWire xid = some x)
    (hwc : s.lookupWire wid = some wcur)
    (hconn : wid ∈ x.connectedWires) :
    (((wcur.junctions.any (fun p =>
        decide (qIndexOf wcur.wirePointsAbsolute p ≠ (index : ℤ))
        && x.pointIsOnWire p.pos)) = true) →
      detachStep wid index s xid
        = s.updateWire wid (fun w => w.setPointIsJunction index false))
    ∧ ((¬((wcur.junctions.any (fun p =>
        decide (qIndexOf wcur.wirePointsAbsolute p ≠ (index : ℤ))
        && x.pointIsOnWire p.pos)) = true)) →
      detachStep wid index s xid
        = (s.disconnectWire wid xid).updateWire wid
            (fun w => w.setPointIsJunction index false)) := by
  unfold detachStep
  rw [if_neg hne]
  simp only [hx, hwc]
  rw [if_pos (List.elem_iff.mpr hconn)]
  constructor
  · intro hk
    rw [if_pos hk]
  · intro hk
    rw [if_neg hk]

/-- C3: when the user moves endpoint `index` of wire `wid` and that point
carried `is_junction`, then for every other wire `xid` whose
directly-connected set records `wid`, the connection is kept exactly when
some junction point of the moved wire other than `index` still lies on
`xid` — otherwise `wid` is removed from `xid`'s connected set — and in
either case the moved wire's `is_junction` flag at `index` is cleared
(scene.cpp 649-680).  The moved wire's absolute points are assumed
pairwise distinct, matching the source's use of indexOf on them. -/
theorem detachWiresPass_spec (sc : Scene) (wid index xid : Nat) (w x : Wire)
    (hndW : sc.wireIds.Nodup) (hndN : sc.netIds.Nodup)
    (hw : sc.lookupWire wid = some w)
    (hx : sc.lookupWire xid = some x)
    (hne : xid ≠ wid)
    (hidx : index = 0 ∨ index = w.pointsAbsolute.length - 1)
    (hj : (w.wirePointsRelative.getD index ⟨⟨0, 0⟩, false⟩).isJunction = true)
    (hnd : w.wirePointsAbsolute.Nodup)
    (hconn : wid ∈ x.connectedWires) :
    (junctionKeeps w x index →
        (sc.detachWiresPass wid index).connOf xid = x.connectedWires)
    ∧ (¬junctionKeeps w x index →
        (sc.detachWiresPass wid index).connOf xid
          = x.connectedWires.filter (fun o => o ≠ wid))
    ∧ (wid ∈ (sc.detachWiresPass wid index).connOf xid ↔ junctionKeeps w x index)
    ∧ (sc.detachWiresPass wid index).lookupWire wid
        = some (w.setPointIsJunction index false) := by
  have hlt : index < w.points.length := by
    by_contra hcon
    unfold Wire.wirePointsRelative at hj
    rw [List.getD_eq_default _ _ (Nat.le_of_not_lt hcon)] at hj
    simp at hj
  have hpass : sc.detachWiresPass wid index
      = sc.wireIds.foldl (detachStep wid index) sc := by
    unfold Scene.detachWiresPass
    simp only [hw]
    rw [if_pos hidx, if_pos hj]
  have hxmem : xid ∈ sc.wireIds := by
    unfold Scene.wireIds
    exact List.mem_map.mpr ⟨x, lookupWire_mem hx, lookupWire_id hx⟩
  obtain ⟨l1, l2, hsplit⟩ := List.append_of_mem hxmem
  have hndsp : (l1 ++ xid :: l2).Nodup := hsplit ▸ hndW
  rw [List.nodup_append] at hndsp
  have hx2 : xid ∉ l2 := (List.nodup_cons.mp hndsp.2.1).1
  have hx1 : xid ∉ l1 := fun h => hndsp.2.2 h (List.mem_cons_self _ _)
  have hinvA := foldl_detach_inv sc wid index hndW l1 sc (List.Perm.refl _) hndN
  have hndWA : (l1.foldl (detachStep wid index) sc).wireIds.Nodup :=
    hinvA.1.nodup_iff.mpr hndW
  have hlkxA : (l1.foldl (detachStep wid index) sc).lookupWire xid = some x := by
    rw [foldl_detach_lookup_other sc wid index xid hndW hne l1 sc hx1
      (List.Perm.refl _) hndN]
    exact hx
  have hfold : sc.detachWiresPass wid index
      = l2.foldl (detachStep wid index)
          (detachStep wid index (l1.foldl (detachStep wid index) sc) xid) := by
    rw [hpass, hsplit, List.foldl_append, List.foldl_cons]
  have hfinal :
      (junctionKeeps w x index →
        (sc.detachWiresPass wid index).lookupWire xid = some x
        ∧ (sc.detachWiresPass wid index).lookupWire wid
            = some (w.setPointIsJunction index false))
      ∧ (¬junctionKeeps w x index →
        (sc.detachWiresPass wid index).lookupWire xid
            = some (x.disconnectWire wid)
        ∧ (sc.detachWiresPass wid index).lookupWire wid
            = some (w.setPointIsJunction index false)) := by
    have hassemble : ∀ wcur : Wire,
        (l1.foldl (detachStep wid index) sc).lookupWire wid = some wcur →
        wcur.setPointIsJunction index false = w.setPointIsJunction index false →
        (((wcur.junctions.any (fun p =>
            decide (qIndexOf wcur.wirePointsAbsolute p ≠ (index : ℤ))
            && x.pointIsOnWire p.pos)) = true) ↔ junctionKeeps w x index) →
        (junctionKeeps w x index →
          (sc.detachWiresPass wid index).lookupWire xid = some x
          ∧ (sc.detachWiresPass wid index).lookupWire wid
              = some (w.setPointIsJunction index false))
        ∧ (¬junctionKeeps w x index →
          (sc.detachWiresPass wid index).lookupWire xid
              = some (x.disconnectWire wid)
          ∧ (sc.detachWiresPass wid index).lookupWire wid
              = some (w.setPointIsJunction index false)) := by
      intro wcur hAw hset hkiff
      obtain ⟨hstep1, hstep2⟩ := detachStep_at_connected
        (l1.foldl (detachStep wid index) sc) wid index xid x wcur hne hlkxA hAw hconn
      have hinvB := detachStep_inv sc (l1.foldl (detachStep wid index) sc)
        wid index xid hinvA.1 hinvA.2 hndWA
      constructor
      · intro hkeep
        have hscene := hstep1 (hkiff.mpr hkeep)
        constructor
        · rw [hfold,
            foldl_detach_lookup_other sc wid index xid hndW hne l2 _ hx2
              hinvB.1 hinvB.2,
            hscene,
            lookupWire_updateWire_ne
              (fun w => w.setPointIsJunction index false) (fun w => rfl) hne]
          exact hlkxA
        · have hBw : (detachStep wid index (l1.foldl (detachStep wid index) sc)
              xid).lookupWire wid = some (w.setPointIsJunction index false) := by
            rw [hscene,
              lookupWire_updateWire_self
                (fun w => w.setPointIsJunction index false) (fun w => rfl) hAw,
              hset]
          rw [hfold]
          rcases foldl_detach_lookup_wid sc wid index hndW l2 _ hinvB.1 hinvB.2
            with hC | hC
          · rw [hC, hBw]
          · rw [hC, hBw]
            simp [Wire.setPointIsJunction_idem]
      · intro hkeep
        have hscene := hstep2 (fun hh => hkeep (hkiff.mp hh))
        constructor
        · rw [hfold,
            foldl_detach_lookup_other sc wid index xid hndW hne l2 _ hx2
              hinvB.1 hinvB.2,
            hscene,
            lookupWire_updateWire_ne
              (fun w => w.setPointIsJunction index false) (fun w => rfl) hne,
            lookupWire_disconnectWire _ wid xid xid hndWA hinvA.2]
          exact lookupWire_updateWire_self
            (fun w => w.disconnectWire wid) (fun w => rfl) hlkxA
        · have h5 : ((l1.foldl (detachStep wid index) sc).disconnectWire wid
              xid).lookupWire wid = some wcur := by
            rw [lookupWire_disconnectWire _ wid xid wid hndWA hinvA.2,
              lookupWire_updateWire_ne
                (fun w => w.disconnectWire wid) (fun w => rfl)
                (fun hEq => hne hEq.symm)]
            exact hAw
          have hBw : (detachStep wid index (l1.foldl (detachStep wid index) sc)
              xid).lookupWire wid = some (w.setPointIsJunction index false) := by
            rw [hscene,
              lookupWire_updateWire_self
                (fun w => w.setPointIsJunction index false) (fun w => rfl) h5,
              hset]
          rw [hfold]
          rcases foldl_detach_lookup_wid sc wid index hndW l2 _ hinvB.1 hinvB.2
            with hC | hC
          · rw [hC, hBw]
          · rw [hC, hBw]
            simp [Wire.setPointIsJunction_idem]
    rcases foldl_detach_lookup_wid sc wid index hndW l1 sc (List.Perm.refl _) hndN
      with hA | hA
    · rw [hw] at hA
      exact hassemble w hA rfl (keepAny_iff w x index hnd)
    · rw [hw] at hA
      simp only [Option.map_some'] at hA
      exact hassemble _ hA (Wire.setPointIsJunction_idem w index false)
        (keepAny_clear_iff w x index hnd hlt)
  refine ⟨?_, ?_, ?_, ?_⟩
  · intro hkeep
    unfold Scene.connOf
    rw [(hfinal.1 hkeep).1]
  · intro hkeep
    unfold Scene.connOf
    rw [(hfinal.2 hkeep).1]
    rfl
  · by_cases hkeep : junctionKeeps w x index
    · refine iff_of_true ?_ hkeep
      unfold Scene.connOf
      rw [(hfinal.1 hkeep).1]
      exact hconn
    · refine iff_of_false ?_ hkeep
      intro hmem
      unfold Scene.connOf at hmem
      rw [(hfinal.2 hkeep).1] at hmem
      simp [Wire.disconnectWire] at hmem
  · by_cases hkeep : junctionKeeps w x index
    · exact (hfinal.1 hkeep).2
    · exact (hfinal.2 hkeep).2

/-- C3 witness state: wire 1's endpoint 0 is a junction being moved; its
other junction point (5,0) still lies on wire 2, which records wire 1 as
connected. -/
def c3WireW : Wire :=
  ⟨1, ⟨0, 0⟩, [⟨⟨0, 0⟩, true⟩, ⟨⟨5, 0⟩, true⟩], []⟩

def c3WireX : Wire :=
  ⟨2, ⟨0, 0⟩, [⟨⟨5, -3⟩, false⟩, ⟨⟨5, 3⟩, false⟩], [1]⟩

def c3Scene : Scene := ⟨[⟨0, "", false, [c3WireW, c3WireX]⟩], []⟩

/-- Witness for the C3 theorem at a concrete scene. -/
theorem detachWiresPass_spec_witness :
    (junctionKeeps c3WireW c3WireX 0 →
        (c3Scene.detachWiresPass 1 0).connOf 2 = c3WireX.connectedWires)
    ∧ (¬junctionKeeps c3WireW c3WireX 0 →
        (c3Scene.detachWiresPass 1 0).connOf 2
          = c3WireX.connectedWires.filter (fun o => o ≠ 1))
    ∧ ((1 ∈ (c3Scene.detachWiresPass 1 0).connOf 2)
        ↔ junctionKeeps c3WireW c3WireX 0)
    ∧ (c3Scene.detachWiresPass 1 0).lookupWire 1
        = some (c3WireW.setPointIsJunction 0 false) :=
  detachWiresPass_spec c3Scene 1 0 2 c3WireW c3WireX (by decide) (by decide)
    (by decide) (by decide) (by decide) (by decide) (by decide) (by decide)
    (by decide)

theorem Connector.attachWire_id (c : Connector) (w : Wire) (i : ℤ) :
    (c.attachWire w i).id = c.id := by
  unfold Connector.attachWire
  split <;> rfl

/-- One load-pass round, seen on the flat connector list. -/
theorem connectorList_loadStep (s : Scene) (w : Wire) :
    (loadStep s w).connectorList
      = s.connectorList.map (fun pc =>
          (pc.1, match w.wirePointsAbsolute.find? (fun q =>
              (pc.1.sub q.pos).normSq < 1) with
            | none => pc.2
            | some q => pc.2.attachWire w (qIndexOf w.wirePointsAbsolute q))) := by
  exact connectorList_map_nodes s
    (fun p c => match w.wirePointsAbsolute.find? (fun q =>
        (p.sub q.pos).normSq < 1) with
      | none => c
      | some q => c.attachWire w (qIndexOf w.wirePointsAbsolute q))
    (by
      intro p c
      simp only []
      split
      · rfl
      · exact Connector.attachWire_pos _ _ _)

theorem findConn_loadStep (s : Scene) (w : Wire) (cid : Nat) :
    (loadStep s w).findConn cid
      = (s.findConn cid).map (fun pc =>
          (pc.1, match w.wirePointsAbsolute.find? (fun q =>
              (pc.1.sub q.pos).normSq < 1) with
            | none => pc.2
            | some q => pc.2.attachWire w (qIndexOf w.wirePointsAbsolute q))) := by
  unfold Scene.findConn
  rw [connectorList_loadStep]
  apply find?_cid_map
  intro pc
  simp only []
  split
  · rfl
  · exact Connector.attachWire_id _ _ _

/-- Wires none of whose points come within 1 unit of the connector leave the
connector untouched through the load pass. -/
theorem foldl_load_findConn (cid : Nat) (p : Pt) :
    ∀ (ws : List Wire) (s : Scene) (c : Connector),
      s.findConn cid = some (p, c) →
      (∀ w' ∈ ws, ∀ r ∈ w'.wirePointsAbsolute, ¬((p.sub r.pos).normSq < 1)) →
      (ws.foldl loadStep s).findConn cid = some (p, c) := by
  intro ws
  induction ws with
  | nil => intro s c hfc _; exact hfc
  | cons a rest ih =>
      intro s c hfc hnone
      rw [List.foldl_cons]
      have hstep : (loadStep s a).findConn cid = some (p, c) := by
        rw [findConn_loadStep, hfc]
        simp only [Option.map_some']
        have hfa : a.wirePointsAbsolute.find? (fun q =>
            (p.sub q.pos).normSq < 1) = none := by
          rw [List.find?_eq_none]
          intro r hr
          simpa using hnone a (List.mem_cons_self _ _) r hr
        simp only [hfa]
      exact ih _ _ hstep (fun w' hw' => hnone w' (List.mem_cons_of_mem a hw'))

/-- C9 (amended; see the counterexample for the original): the load pass
binds a connector to the unique wire having some point — endpoint or not —
within 1 unit of the connector's scene position, at the index of that wire's
first such point, provided the connector's stored index passes the
attachWire stale-index guard; when several wires match, the one iterated
last wins (counterexample), so uniqueness of the matching wire is assumed
here. -/
theorem attachLoadPass_spec (sc : Scene) (cid : Nat) (p : Pt) (c : Connector)
    (w : Wire) (q : WirePoint) (u v : List Wire)
    (hws : sc.wires = u ++ w :: v)
    (hfc : sc.findConn cid = some (p, c))
    (hfind : w.wirePointsAbsolute.find? (fun r =>
        (p.sub r.pos).normSq < 1) = some q)
    (hnone : ∀ w' ∈ u ++ v, ∀ r ∈ w'.wirePointsAbsolute,
        ¬((p.sub r.pos).normSq < 1))
    (hguard : ¬(c.wirePointIndex < -1)
      ∧ c.wirePointIndex ≤ (w.wirePointsRelative.length : ℤ)) :
    (sc.attachLoadPass).findConn cid
      = some (p, { c with
                   wire := some w.id,
                   wirePointIndex := qIndexOf w.wirePointsAbsolute q }) := by
  unfold Scene.attachLoadPass
  rw [hws, List.foldl_append, List.foldl_cons]
  have hu : (u.foldl loadStep sc).findConn cid = some (p, c) :=
    foldl_load_findConn cid p u sc c hfc
      (fun w' hw' => hnone w' (List.mem_append_left _ hw'))
  have hrec : c.attachWire w (qIndexOf w.wirePointsAbsolute q)
      = { c with
          wire := some w.id,
          wirePointIndex := qIndexOf w.wirePointsAbsolute q } := by
    unfold Connector.attachWire
    rw [if_neg]
    intro hcon
    rcases hcon with h1 | h2
    · exact hguard.1 h1
    · have h3 := hguard.2
      omega
  have hw1 : (loadStep (u.foldl loadStep sc) w).findConn cid
      = some (p, { c with
          wire := some w.id,
          wirePointIndex := qIndexOf w.wirePointsAbsolute q }) := by
    rw [findConn_loadStep, hu]
    simp only [Option.map_some']
    simp only [hfind]
    rw [hrec]
  exact foldl_load_findConn cid p v _ _ hw1
    (fun w' hw' => hnone w' (List.mem_append_right _ hw'))

/-- C9 witness: the spec's S3 scenario — node at (0,0), connector local
(0,0), a single wire whose point 0 is (0,0); after the load pass the
connector is bound to (wire, 0). -/
def c9S3Wire : Wire := ⟨7, ⟨0, 0⟩, [⟨⟨0, 0⟩, false⟩, ⟨⟨4, 0⟩, false⟩], []⟩

def c9S3Scene : Scene :=
  ⟨[⟨0, "", false, [c9S3Wire]⟩], [⟨20, ⟨0, 0⟩, [⟨30, ⟨0, 0⟩, none, -1⟩]⟩]⟩

theorem attachLoadPass_spec_witness :
    (c9S3Scene.attachLoadPass).findConn 30
      = some (⟨0, 0⟩,
          { (⟨30, ⟨0, 0⟩, none, -1⟩ : Connector) with
            wire := some c9S3Wire.id,
            wirePointIndex := qIndexOf c9S3Wire.wirePointsAbsolute ⟨⟨0, 0⟩, false⟩ }) :=
  attachLoadPass_spec c9S3Scene 30 ⟨0, 0⟩ ⟨30, ⟨0, 0⟩, none, -1⟩ c9S3Wire
    ⟨⟨0, 0⟩, false⟩ [] [] (by decide) (by decide) (by decide)
    (by decide) (by decide)

theorem filter_length_mono {α : Type} (p q : α → Bool) :
    ∀ (l : List α), (∀ x ∈ l, q x = true → p x = true) →
      (l.filter q).length ≤ (l.filter p).length := by
  intro l
  induction l with
  | nil => intro _; simp
  | cons a rest ih =>
      intro himp
      have ih' := ih (fun x hx h => himp x (List.mem_cons_of_mem a hx) h)
      by_cases hq : q a = true
      · have hp := himp a (List.mem_cons_self a rest) hq
        rw [List.filter_cons, if_pos hq, List.filter_cons, if_pos hp]
        simp only [List.length_cons]
        omega
      · rw [List.filter_cons, if_neg hq]
        by_cases hp : p a = true
        · rw [List.filter_cons, if_pos hp]
          simp only [List.length_cons]
          omega
        · rw [List.filter_cons, if_neg hp]
          exact ih'

theorem filter_length_lt {α : Type} (p q : α → Bool) (x0 : α)
    (hp0 : p x0 = true) (hq0 : q x0 = false) :
    ∀ (l : List α), (∀ x ∈ l, q x = true → p x = true) → x0 ∈ l →
      (l.filter q).length < (l.filter p).length := by
  intro l
  induction l with
  | nil => intro _ hx0; simp at hx0
  | cons a rest ih =>
      intro himp hx0
      have himp' : ∀ x ∈ rest, q x = true → p x = true :=
        fun x hx h => himp x (List.mem_cons_of_mem a hx) h
      by_cases hqa : q a = true
      · have hpa := himp a (List.mem_cons_self a rest) hqa
        have hx0r : x0 ∈ rest := by
          rcases List.mem_cons.mp hx0 with h | h
          · rw [h, hqa] at hq0
            exact absurd hq0 (by simp)
          · exact h
        have hlt := ih himp' hx0r
        rw [List.filter_cons, if_pos hqa, List.filter_cons, if_pos hpa]
        simp only [List.length_cons]
        omega
      · rw [List.filter_cons, if_neg hqa]
        by_cases hpa : p a = true
        · have hle := filter_length_mono p q rest himp'
          rw [List.filter_cons, if_pos hpa]
          simp only [List.length_cons]
          omega
        · have hx0r : x0 ∈ rest := by
            rcases List.mem_cons.mp hx0 with h | h
            · exact absurd (h ▸ hp0) hpa
            · exact h
          have hlt := ih himp' hx0r
          rw [List.filter_cons, if_neg hpa]
          exact hlt

/-- The collected list only grows along the BFS loop. -/
theorem bfsLoop_keeps (sc : Scene) (ids : List Nat) :
    ∀ (fuel : Nat) (collected : List Nat),
      collected ⊆ sc.bfsLoop ids fuel collected := by
  intro fuel
  induction fuel with
  | zero => intro c a ha; exact ha
  | succ f ih =>
      intro c a ha
      simp only [Scene.bfsLoop]
      by_cases hnl : (sc.bfsRound ids c).isEmpty = true
      · rw [if_pos hnl]
        exact ha
      · rw [if_neg hnl]
        exact ih (c ++ sc.bfsRound ids c) (List.mem_append_left _ ha)

/-- Everything the BFS loop collects is reachable from `wid` through the
symmetric closure of the directly-connected relation, stepping inside the
net's id list. -/
theorem bfsLoop_sound (sc : Scene) (ids : List Nat) (wid : Nat) :
    ∀ (fuel : Nat) (collected : List Nat),
      (∀ x ∈ collected, Relation.ReflTransGen (fun u v => v ∈ ids
        ∧ (v ∈ sc.connOf u ∨ u ∈ sc.connOf v)) wid x) →
      ∀ x ∈ sc.bfsLoop ids fuel collected,
        Relation.ReflTransGen (fun u v => v ∈ ids
          ∧ (v ∈ sc.connOf u ∨ u ∈ sc.connOf v)) wid x := by
  intro fuel
  induction fuel with
  | zero => intro c hc x hx; exact hc x hx
  | succ f ih =>
      intro c hc x hx
      simp only [Scene.bfsLoop] at hx
      by_cases hnl : (sc.bfsRound ids c).isEmpty = true
      · rw [if_pos hnl] at hx
        exact hc x hx
      · rw [if_neg hnl] at hx
        refine ih _ ?_ x hx
        intro y hy
        rcases List.mem_append.mp hy with h1 | h2
        · exact hc y h1
        · unfold Scene.bfsRound at h2
          rw [List.mem_filter] at h2
          obtain ⟨hyids, hpred⟩ := h2
          rw [Bool.and_eq_true] at hpred
          rw [List.any_eq_true] at hpred
          obtain ⟨w2, hw2c, hedge⟩ := hpred.2
          rw [Bool.or_eq_true] at hedge
          refine Relation.ReflTransGen.tail (hc w2 hw2c) ⟨hyids, ?_⟩
          rcases hedge with h | h
          · exact Or.inl (List.elem_iff.mp h)
          · exact Or.inr (List.elem_iff.mp h)

/-- With fuel exceeding the count of not-yet-collected net wires, the BFS
loop reaches a state with an empty round (the do-while exits), and extra
fuel does not change the result: the iteration count is bounded by the
net's wire count. -/
theorem bfsLoop_closure (sc : Scene) (ids : List Nat) :
    ∀ (fuel : Nat) (collected : List Nat),
      (ids.filter (fun o => !(collected.contains o))).length < fuel →
      sc.bfsRound ids (sc.bfsLoop ids fuel collected) = []
      ∧ ∀ extra, sc.bfsLoop ids (fuel + extra) collected
          = sc.bfsLoop ids fuel collected := by
  intro fuel
  induction fuel with
  | zero => intro c hm; exact absurd hm (by omega)
  | succ f ih =>
      intro c hm
      by_cases hnl : (sc.bfsRound ids c).isEmpty = true
      · have hempty : sc.bfsRound ids c = [] := List.isEmpty_iff.mp hnl
        have hstop : sc.bfsLoop ids (f + 1) c = c := by
          simp only [Scene.bfsLoop]
          rw [if_pos hnl]
        constructor
        · rw [hstop]
          exact hempty
        · intro extra
          rw [hstop, show f + 1 + extra = (f + extra) + 1 from by omega]
          simp only [Scene.bfsLoop]
          rw [if_pos hnl]
      · have hne : sc.bfsRound ids c ≠ [] := by
          intro h
          rw [h] at hnl
          exact hnl rfl
        obtain ⟨o0, ho0⟩ := List.exists_mem_of_ne_nil _ hne
        have ho0f : o0 ∈ ids ∧ (!(c.contains o0)
            && c.any (fun w2 => (sc.connOf w2).contains o0
              || (sc.connOf o0).contains w2)) = true := by
          unfold Scene.bfsRound at ho0
          exact List.mem_filter.mp ho0
        have hp0 : (fun o => !(c.contains o)) o0 = true := by
          have := ho0f.2
          rw [Bool.and_eq_true] at this
          exact this.1
        have hq0 : (fun o => !((c ++ sc.bfsRound ids c).contains o)) o0 = false := by
          simp only [Bool.not_eq_false']
          exact List.elem_iff.mpr (List.mem_append_right _ ho0)
        have hmono : ∀ x ∈ ids,
            (fun o => !((c ++ sc.bfsRound ids c).contains o)) x = true →
            (fun o => !(c.contains o)) x = true := by
          intro x _ hx
          simp only [Bool.not_eq_true'] at hx ⊢
          cases hc2 : c.contains x with
          | false => rfl
          | true =>
              have hmem := List.elem_iff.mp hc2
              have hall : (c ++ sc.bfsRound ids c).contains x = true :=
                List.elem_iff.mpr (List.mem_append_left _ hmem)
              rw [hall] at hx
              exact absurd hx (by simp)
        have hmeas2 : (ids.filter (fun o =>
            !((c ++ sc.bfsRound ids c).contains o))).length < f := by
          have hlt := filter_length_lt (fun o => !(c.contains o))
            (fun o => !((c ++ sc.bfsRound ids c).contains o)) o0 hp0 hq0 ids
            hmono ho0f.1
          omega
        obtain ⟨hcl, hst⟩ := ih (c ++ sc.bfsRound ids c) hmeas2
        have hstep : sc.bfsLoop ids (f + 1) c
            = sc.bfsLoop ids f (c ++ sc.bfsRound ids c) := by
          simp only [Scene.bfsLoop]
          rw [if_neg hnl]
        constructor
        · rw [hstep]
          exact hcl
        · intro extra
          rw [show f + 1 + extra = (f + extra) + 1 from by omega]
          have hstep2 : sc.bfsLoop ids ((f + extra) + 1) c
              = sc.bfsLoop ids (f + extra) (c ++ sc.bfsRound ids c) := by
            simp only [Scene.bfsLoop]
            rw [if_neg hnl]
          rw [hstep2, hstep, hst extra]

/-- C10: for a wire that belongs to a net, wiresConnectedTo contains the
wire itself and exactly the net wires reachable from it through the
symmetric closure of the directly-connected relation (stepping through net
wires), and the do-while loop needs at most one round per net wire: any
fuel beyond the net's wire count plus one leaves the result unchanged. -/
theorem wiresConnectedTo_spec (sc : Scene) (wid : Nat) (n : WireNet)
    (hnet : sc.netFromWire wid = some n) :
    wid ∈ sc.wiresConnectedTo wid
    ∧ (∀ x, x ∈ sc.wiresConnectedTo wid ↔
        Relation.ReflTransGen (fun u v => v ∈ n.wires.map Wire.id
          ∧ (v ∈ sc.connOf u ∨ u ∈ sc.connOf v)) wid x)
    ∧ (∀ extra, sc.bfsLoop (n.wires.map Wire.id)
          ((n.wires.map Wire.id).length + 1 + extra) [wid]
        = sc.wiresConnectedTo wid) := by
  have heq : sc.wiresConnectedTo wid
      = sc.bfsLoop (n.wires.map Wire.id)
          ((n.wires.map Wire.id).length + 1) [wid] := by
    unfold Scene.wiresConnectedTo
    simp only [hnet]
  have hmeas : ((n.wires.map Wire.id).filter
      (fun o => !(([wid] : List Nat).contains o))).length
      < (n.wires.map Wire.id).length + 1 :=
    Nat.lt_succ_of_le (List.length_filter_le _ _)
  obtain ⟨hcl, hst⟩ := bfsLoop_closure sc (n.wires.map Wire.id)
    ((n.wires.map Wire.id).length + 1) [wid] hmeas
  have hwid : wid ∈ sc.wiresConnectedTo wid := by
    rw [heq]
    exact bfsLoop_keeps sc (n.wires.map Wire.id) _ [wid]
      (List.mem_singleton_self wid)
  refine ⟨hwid, ?_, ?_⟩
  · intro x
    constructor
    · intro hx
      rw [heq] at hx
      refine bfsLoop_sound sc (n.wires.map Wire.id) wid _ [wid] ?_ x hx
      intro y hy
      rw [List.mem_singleton] at hy
      rw [hy]
    · intro hx
      induction hx with
      | refl => exact hwid
      | tail hab hbc ihb =>
          by_contra hc
          rename_i b c2
          have hcC : c2 ∉ sc.bfsLoop (n.wires.map Wire.id)
              ((n.wires.map Wire.id).length + 1) [wid] := by
            rw [← heq]
            exact hc
          have hbC : b ∈ sc.bfsLoop (n.wires.map Wire.id)
              ((n.wires.map Wire.id).length + 1) [wid] := by
            rw [← heq]
            exact ihb
          have hmem : c2 ∈ sc.bfsRound (n.wires.map Wire.id)
              (sc.bfsLoop (n.wires.map Wire.id)
                ((n.wires.map Wire.id).length + 1) [wid]) := by
            unfold Scene.bfsRound
            rw [List.mem_filter]
            refine ⟨hbc.1, ?_⟩
            rw [Bool.and_eq_true]
            constructor
            · simp only [Bool.not_eq_true']
              cases hcc : (sc.bfsLoop (n.wires.map Wire.id)
                  ((n.wires.map Wire.id).length + 1) [wid]).contains c2 with
              | false => rfl
              | true => exact absurd (List.elem_iff.mp hcc) hcC
            · rw [List.any_eq_true]
              refine ⟨b, hbC, ?_⟩
              rw [Bool.or_eq_true]
              rcases hbc.2 with h | h
              · exact Or.inl (List.elem_iff.mpr h)
              · exact Or.inr (List.elem_iff.mpr h)
          rw [hcl] at hmem
          exact absurd hmem (List.not_mem_nil c2)
  · intro extra
    rw [heq]
    exact hst extra

/-- C10 witness net: wires 1, 2, 3 in one net; wire 1 records wire 2 as
connected; wire 3 is connected to nothing. -/
def c10Scene : Scene :=
  ⟨[⟨0, "", false,
      [⟨1, ⟨0, 0⟩, [], [2]⟩, ⟨2, ⟨0, 0⟩, [], []⟩, ⟨3, ⟨0, 0⟩, [], []⟩]⟩], []⟩

theorem wiresConnectedTo_spec_witness :
    1 ∈ c10Scene.wiresConnectedTo 1
    ∧ (∀ x, x ∈ c10Scene.wiresConnectedTo 1 ↔
        Relation.ReflTransGen (fun u v => v ∈ List.map Wire.id
            (⟨0, "", false, [⟨1, ⟨0, 0⟩, [], [2]⟩, ⟨2, ⟨0, 0⟩, [], []⟩,
              ⟨3, ⟨0, 0⟩, [], []⟩]⟩ : WireNet).wires
          ∧ (v ∈ c10Scene.connOf u ∨ u ∈ c10Scene.connOf v)) 1 x)
    ∧ (∀ extra, c10Scene.bfsLoop (List.map Wire.id
          (⟨0, "", false, [⟨1, ⟨0, 0⟩, [], [2]⟩, ⟨2, ⟨0, 0⟩, [], []⟩,
            ⟨3, ⟨0, 0⟩, [], []⟩]⟩ : WireNet).wires)
          ((List.map Wire.id (⟨0, "", false, [⟨1, ⟨0, 0⟩, [], [2]⟩,
            ⟨2, ⟨0, 0⟩, [], []⟩, ⟨3, ⟨0, 0⟩, [], []⟩]⟩ : WireNet).wires).length
            + 1 + extra) [1]
        = c10Scene.wiresConnectedTo 1) :=
  wiresConnectedTo_spec c10Scene 1
    ⟨0, "", false, [⟨1, ⟨0, 0⟩, [], [2]⟩, ⟨2, ⟨0, 0⟩, [], []⟩,
      ⟨3, ⟨0, 0⟩, [], []⟩]⟩ (by decide)

end QSchematic
